import Mathlib

/-!
# mesheryctl `system config`

A shallow embedding of `mesheryctl/internal/cli/root/system/config.go`.

* Go `string` is `String`; a Go `[]byte` that holds text (the HTTP bodies, the
  kubeconfig file, standard input) is a `List Char`.
* Go `error` values are represented by their message.
* Everything the command does to the outside world (running a script, sending a
  request, printing, reading standard input, logging) is recorded, in order, in
  a trace of `Event`s; what the outside world answers comes from an `Env`.
* `log.Fatal` ends the process with exit status 1, a run-time panic ends it
  with a `Panic`.
* `int` has 64 bits.

The functions of the Go standard library that the file calls (`encoding/json`,
`mime/multipart`, `fmt.Scanf`) are modelled as far as the file uses them.
-/

namespace Mesheryctl

/-! ## `encoding/json`: the part `json.Unmarshal(body, &val)` with
`val : []map[string]string` exercises -/

/-- A parsed JSON text. Number literals keep their spelling. -/
inductive JSON where
  | null
  | bool (b : Bool)
  | num (lit : List Char)
  | str (s : String)
  | arr (elems : List JSON)
  | obj (members : List (String × JSON))

/-- JSON insignificant whitespace. -/
def isWs (c : Char) : Bool :=
  c = ' ' || c = '\t' || c = '\r' || c = '\n'

/-- Drop leading whitespace. -/
def skipWs : List Char → List Char
  | [] => []
  | c :: cs => if isWs c then skipWs cs else c :: cs

/-- Value of a hexadecimal digit. -/
def hexVal (c : Char) : Option Nat :=
  if '0' ≤ c ∧ c ≤ '9' then some (c.toNat - '0'.toNat)
  else if 'a' ≤ c ∧ c ≤ 'f' then some (c.toNat - 'a'.toNat + 10)
  else if 'A' ≤ c ∧ c ≤ 'F' then some (c.toNat - 'A'.toNat + 10)
  else none

/-- The character a single-letter escape stands for. -/
def simpleEscape (c : Char) : Option Char :=
  if c = '"' then some '"'
  else if c = '\\' then some '\\'
  else if c = '/' then some '/'
  else if c = 'b' then some (Char.ofNat 8)
  else if c = 'f' then some (Char.ofNat 12)
  else if c = 'n' then some '\n'
  else if c = 'r' then some '\r'
  else if c = 't' then some '\t'
  else none

/-- Where the string scanner stands: in plain text, right after a backslash, or
inside `\uXXXX` with `left` digits to go and `val` accumulated so far. -/
inductive StrMode where
  | plain
  | esc
  | hex (left : Nat) (val : Nat)

/-- U+FFFD, which the decoder substitutes for an unpaired surrogate. -/
def replacementChar : Char := Char.ofNat 0xFFFD

/-- Output for a pending unpaired high surrogate, if any. -/
def flushPending : Option Nat → List Char
  | none => []
  | some _ => [replacementChar]

/-- Emit the code unit `u` of a completed `\uXXXX` given the pending high
surrogate: the characters to output and the new pending surrogate. -/
def emitUnit (pending : Option Nat) (u : Nat) : List Char × Option Nat :=
  if 0xD800 ≤ u ∧ u < 0xDC00 then
    (flushPending pending, some u)
  else if 0xDC00 ≤ u ∧ u < 0xE000 then
    match pending with
    | some hi => ([Char.ofNat (0x10000 + (hi - 0xD800) * 0x400 + (u - 0xDC00))], none)
    | none => ([replacementChar], none)
  else
    (flushPending pending ++ [Char.ofNat u], none)

/-- Scan a string literal after its opening quote: the decoded characters and
the input after the closing quote. Control characters and unknown escapes are
syntax errors. -/
def scanString : StrMode → Option Nat → List Char → Option (List Char × List Char)
  | _, _, [] => none
  | .plain, pending, c :: cs =>
    if c = '"' then some (flushPending pending, cs)
    else if c = '\\' then scanString .esc pending cs
    else if c.toNat < 0x20 then none
    else (scanString .plain none cs).map (fun r => (flushPending pending ++ c :: r.1, r.2))
  | .esc, pending, c :: cs =>
    if c = 'u' then scanString (.hex 4 0) pending cs
    else match simpleEscape c with
      | none => none
      | some e => (scanString .plain none cs).map (fun r => (flushPending pending ++ e :: r.1, r.2))
  | .hex left val, pending, c :: cs =>
    match hexVal c with
    | none => none
    | some d =>
      if left ≤ 1 then
        let out := emitUnit pending (val * 16 + d)
        (scanString .plain out.2 cs).map (fun r => (out.1 ++ r.1, r.2))
      else scanString (.hex (left - 1) (val * 16 + d)) pending cs

/-- Decimal digit test. -/
def isDigit (c : Char) : Bool := '0' ≤ c ∧ c ≤ '9'

/-- One or more digits: the input after them. -/
def digits1 (cs : List Char) : Option (List Char) :=
  match cs with
  | c :: rest => if isDigit c then some (rest.dropWhile isDigit) else none
  | [] => none

/-- Scan a number literal `-? (0 | [1-9][0-9]*) (. [0-9]+)? ([eE] [+-]? [0-9]+)?`:
the input after it. -/
def scanNumber (cs : List Char) : Option (List Char) :=
  let afterSign := match cs with
    | '-' :: r => r
    | _ => cs
  let afterInt : Option (List Char) := match afterSign with
    | c :: r => if c = '0' then some r else if isDigit c then some (r.dropWhile isDigit) else none
    | [] => none
  let afterFrac : Option (List Char) := afterInt.bind fun s => match s with
    | '.' :: r => digits1 r
    | _ => some s
  afterFrac.bind fun s => match s with
    | c :: r =>
      if c = 'e' ∨ c = 'E' then
        match r with
        | '+' :: r2 => digits1 r2
        | '-' :: r2 => digits1 r2
        | _ => digits1 r
      else some s
    | [] => some s

/-- If `cs` starts with `word`, the rest. -/
def stripWord (word cs : List Char) : Option (List Char) :=
  if word.isPrefixOf cs then some (cs.drop word.length) else none

mutual
/-- Parse one JSON value at the head of the input (leading whitespace already
skipped). `fuel` bounds the number of nested calls. -/
def parseValue : Nat → List Char → Option (JSON × List Char)
  | 0, _ => none
  | fuel + 1, cs =>
    match cs with
    | [] => none
    | c :: rest =>
      if c = '{' then
        match skipWs rest with
        | '}' :: r => some (.obj [], r)
        | r => (parseMembers fuel r).map (fun p => (.obj p.1, p.2))
      else if c = '[' then
        match skipWs rest with
        | ']' :: r => some (.arr [], r)
        | r => (parseElems fuel r).map (fun p => (.arr p.1, p.2))
      else if c = '"' then
        (scanString .plain none rest).map (fun p => (.str (String.mk p.1), p.2))
      else if c = '-' ∨ isDigit c then
        (scanNumber cs).map (fun r => (.num (cs.take (cs.length - r.length)), r))
      else if c = 't' then (stripWord "true".toList cs).map (fun r => (.bool true, r))
      else if c = 'f' then (stripWord "false".toList cs).map (fun r => (.bool false, r))
      else if c = 'n' then (stripWord "null".toList cs).map (fun r => (.null, r))
      else none
/-- Parse `value (, value)* ]`. -/
def parseElems : Nat → List Char → Option (List JSON × List Char)
  | 0, _ => none
  | fuel + 1, cs =>
    match parseValue fuel cs with
    | none => none
    | some (v, r) =>
      match skipWs r with
      | ']' :: r2 => some ([v], r2)
      | ',' :: r2 => (parseElems fuel (skipWs r2)).map (fun p => (v :: p.1, p.2))
      | _ => none
/-- Parse `"key" : value (, "key" : value)* }`. -/
def parseMembers : Nat → List Char → Option (List (String × JSON) × List Char)
  | 0, _ => none
  | fuel + 1, cs =>
    match cs with
    | '"' :: r0 =>
      match scanString .plain none r0 with
      | none => none
      | some (k, r1) =>
        match skipWs r1 with
        | ':' :: r2 =>
          match parseValue fuel (skipWs r2) with
          | none => none
          | some (v, r3) =>
            match skipWs r3 with
            | '}' :: r4 => some ([(String.mk k, v)], r4)
            | ',' :: r4 => (parseMembers fuel (skipWs r4)).map (fun p => ((String.mk k, v) :: p.1, p.2))
            | _ => none
        | _ => none
    | _ => none
end

/-- The whole text is one JSON value surrounded by optional whitespace
(`checkValid` succeeds); every recursive call of the parser consumes at least
one character, so `length + 1` calls always suffice. -/
def parseJSON (body : List Char) : Option JSON :=
  match parseValue (body.length + 1) (skipWs body) with
  | some (v, rest) => if skipWs rest = [] then some v else none
  | none => none

/-- Go `map[string]string`: an association list with one entry per key; the
nil map is the empty list. -/
abbrev GoMap := List (String × String)

/-- The assignment `m[k] = v`. -/
def GoMap.set : GoMap → String → String → GoMap
  | [], k, v => [(k, v)]
  | (k0, v0) :: rest, k, v => if k0 = k then (k, v) :: rest else (k0, v0) :: GoMap.set rest k v

/-- The expression `m[k]`: the zero value `""` when the key is absent. -/
def GoMap.get (m : GoMap) (k : String) : String :=
  match m.find? (fun p => p.1 = k) with
  | some p => p.2
  | none => ""

/-- Decode a JSON value into a `string` target: the stored string and the type
error recorded, if any. `null` leaves the zero value without an error; any
non-string value records an `UnmarshalTypeError` and is skipped. -/
def decodeString : JSON → String × Option String
  | .str s => (s, none)
  | .null => ("", none)
  | .bool _ => ("", some "json: cannot unmarshal bool into Go value of type string")
  | .num _ => ("", some "json: cannot unmarshal number into Go value of type string")
  | .arr _ => ("", some "json: cannot unmarshal array into Go value of type string")
  | .obj _ => ("", some "json: cannot unmarshal object into Go value of type string")

/-- The first recorded error wins (`saveError`). -/
def firstError (a b : Option String) : Option String :=
  match a with
  | some e => some e
  | none => b

/-- Decode the members of a JSON object into a map: each key is assigned in
order of appearance, so a repeated key keeps its last value. -/
def decodeMembers : List (String × JSON) → GoMap × Option String → GoMap × Option String
  | [], acc => acc
  | (k, v) :: rest, acc =>
    decodeMembers rest ((acc.1.set k (decodeString v).1), firstError acc.2 (decodeString v).2)

/-- Decode a JSON value into a `map[string]string` target (initially nil). -/
def decodeMap : JSON → GoMap × Option String
  | .obj members => decodeMembers members ([], none)
  | .null => ([], none)
  | .bool _ => ([], some "json: cannot unmarshal bool into Go value of type map[string]string")
  | .num _ => ([], some "json: cannot unmarshal number into Go value of type map[string]string")
  | .str _ => ([], some "json: cannot unmarshal string into Go value of type map[string]string")
  | .arr _ => ([], some "json: cannot unmarshal array into Go value of type map[string]string")

/-- Decode the elements of a JSON array, one slice element each. -/
def decodeElems : List JSON → List GoMap × Option String
  | [] => ([], none)
  | e :: rest =>
    ((decodeMap e).1 :: (decodeElems rest).1, firstError (decodeMap e).2 (decodeElems rest).2)

/-- Decode a JSON value into the `[]map[string]string` target whose current
value is `val`: an array replaces it, `null` sets it to nil, anything else
records a type error and leaves it alone. -/
def decodeSlice (val : List GoMap) : JSON → List GoMap × Option String
  | .arr elems => decodeElems elems
  | .null => ([], none)
  | .bool _ => (val, some "json: cannot unmarshal bool into Go value of type []map[string]string")
  | .num _ => (val, some "json: cannot unmarshal number into Go value of type []map[string]string")
  | .str _ => (val, some "json: cannot unmarshal string into Go value of type []map[string]string")
  | .obj _ => (val, some "json: cannot unmarshal object into Go value of type []map[string]string")

/-- `json.Unmarshal(body, &val)`: the new value of `val` and the returned
error. The text is validated as a whole first, so a syntax error leaves `val`
untouched. -/
def Unmarshal (body : List Char) (val : List GoMap) : List GoMap × Option String :=
  match parseJSON body with
  | none => (val, some "json: syntax error")
  | some j => decodeSlice val j

/-- Lines 104-111 of `getContexts`: decode the response body, discarding the
decode error, and collect `item["contextName"]` of every element in order. -/
def decodeContexts (body : List Char) : List String :=
  let val : List GoMap := (Unmarshal body []).1
  val.foldl (fun contexts item => contexts ++ [item.get "contextName"]) []

/-! ## `mime/multipart`: the writer -/

/-- The `mime/multipart` writer's `escapeQuotes`: a backslash before every
backslash and double quote. -/
def escapeQuotes (s : List Char) : List Char :=
  s.flatMap fun c => if c = '\\' ∨ c = '"' then ['\\', c] else [c]

/-- A `multipart.Writer` over a `bytes.Buffer`: the boundary, what has been
written so far, and whether a part has been started. -/
structure Writer where
  boundary : String
  w : List Char
  lastpart : Bool
deriving DecidableEq

/-- `multipart.NewWriter` with the boundary the random source produced. -/
def NewWriter (boundary : String) : Writer :=
  { boundary := boundary, w := [], lastpart := false }

/-- `CreatePart`: the delimiter line, the header lines (given sorted by key)
and the empty line that ends the header. -/
def Writer.CreatePart (wr : Writer) (header : List (String × String)) : Writer :=
  let delim : List Char :=
    if wr.lastpart then "\r\n--".toList ++ wr.boundary.toList ++ "\r\n".toList
    else "--".toList ++ wr.boundary.toList ++ "\r\n".toList
  let lines : List Char := header.flatMap fun kv => kv.1.toList ++ ": ".toList ++ kv.2.toList ++ "\r\n".toList
  { wr with w := wr.w ++ delim ++ lines ++ "\r\n".toList, lastpart := true }

/-- `CreateFormFile(fieldname, filename)`. -/
def Writer.CreateFormFile (wr : Writer) (fieldname filename : String) : Writer :=
  wr.CreatePart
    [("Content-Disposition",
        String.mk ("form-data; name=\"".toList ++ escapeQuotes fieldname.toList ++
          "\"; filename=\"".toList ++ escapeQuotes filename.toList ++ "\"".toList)),
     ("Content-Type", "application/octet-stream")]

/-- Writing to the current part appends to the buffer. -/
def Writer.Write (wr : Writer) (p : List Char) : Writer :=
  { wr with w := wr.w ++ p }

/-- `WriteField(fieldname, value)`: `CreateFormField` and a write of the value. -/
def Writer.WriteField (wr : Writer) (fieldname value : String) : Writer :=
  (wr.CreatePart
    [("Content-Disposition",
        String.mk ("form-data; name=\"".toList ++ escapeQuotes fieldname.toList ++ "\"".toList))]).Write
    value.toList

/-- `Close`: the closing delimiter. -/
def Writer.Close (wr : Writer) : Writer :=
  { wr with w := wr.w ++ "\r\n--".toList ++ wr.boundary.toList ++ "--\r\n".toList }

/-- `FormDataContentType`: the boundary is quoted when it contains a special
character. -/
def Writer.FormDataContentType (wr : Writer) : String :=
  if wr.boundary.toList.any (fun c => c ∈ "()<>@,;:\\\"/[]?= ".toList) then
    "multipart/form-data; boundary=\"" ++ wr.boundary ++ "\""
  else "multipart/form-data; boundary=" ++ wr.boundary

/-! ## The outside world -/

/-- An `http.Request` as far as this file builds it. -/
structure Request where
  method : String
  url : String
  header : List (String × String)
  body : List Char
deriving DecidableEq

/-- An argument of a formatted print. -/
inductive Arg where
  | int (i : Int)
  | str (s : String)
deriving DecidableEq

/-- One interaction with the outside world, or the entry into one of the two
request functions. -/
inductive Event where
  | logFatal (msg : String)
  | logDebugf (format : String) (args : List Arg)
  | execRun (name : String) (argv : List String)
  | ScriptMinikube
  | ScriptGKE (saName ns : String)
  | StringWithCharset (length : Nat)
  | openFile (path : String)
  | addAuthDetails (req : Request) (tokenPath : String)
  | clientDo (req : Request)
  | println (args : List Arg)
  | printf (format : String) (args : List Arg)
  | print (args : List Arg)
  | scanf (format : String)
  | enterGetContexts (configFile tokenPath : String)
  | enterSetDefaultContext (configFile cname tokenPath : String)
deriving DecidableEq

/-- A run-time panic. -/
inductive Panic where
  | nilDereference
  | indexOutOfRange (index : Int) (length : Nat)
deriving DecidableEq

/-- How the process ends before the command returns. -/
inductive Halt where
  | exit (code : Nat)
  | panic (p : Panic)
deriving DecidableEq

/-- What the outside world answers. Each field stands for a collaborator that
is not part of this file. -/
structure Env where
  /-- `utils.ScriptMinikube()`. -/
  ScriptMinikube : String
  /-- `utils.ScriptGKE(saName, namespace)`. -/
  ScriptGKE : String → String → String
  /-- `utils.StringWithCharset(n)`: the random string drawn. -/
  StringWithCharset : Nat → String
  /-- `exec.Command(name, argv...).Run()`: the error, if any. -/
  execRun : String → List String → Option String
  /-- `os.Open`, `ioutil.ReadAll` and `file.Stat` on a path: the contents, or the
  first error. -/
  readFile : String → Except String (List Char)
  /-- The boundary `multipart.NewWriter` draws for the n-th writer created. -/
  boundary : Nat → String
  /-- `http.NewRequest(method, url, body)`: the error, if any. -/
  newRequestError : String → String → Option String
  /-- `utils.AddAuthDetails(req, tokenPath)`: the request with credentials, or an error. -/
  AddAuthDetails : Request → String → Except String Request
  /-- `client.Do(req)` followed by reading the whole response body: the transport
  error, or the result of the read. -/
  clientDo : Request → Except String (Except String (List Char))
  /-- What standard input holds. -/
  stdin : List Char

deriving instance DecidableEq for Except

/-- A computation of the command: the events so far and either a halt or a value. -/
structure Step (α : Type) where
  trace : List Event
  result : Except Halt α
deriving DecidableEq

/-- Return a value without any event. -/
def Step.pure {α : Type} (a : α) : Step α := ⟨[], .ok a⟩

/-- Sequencing: a halt stops everything after it. -/
def Step.bind {α β : Type} (x : Step α) (f : α → Step β) : Step β :=
  match x.result with
  | .error h => ⟨x.trace, .error h⟩
  | .ok a => ⟨x.trace ++ (f a).trace, (f a).result⟩

instance : Monad Step where
  pure := Step.pure
  bind := Step.bind

/-- Record one event. -/
def emit (e : Event) : Step Unit := ⟨[e], .ok ()⟩

/-- `log.Fatal` / `log.Fatalf`: log the message and exit with status 1. -/
def logFatal {α : Type} (msg : String) : Step α := ⟨[.logFatal msg], .error (.exit 1)⟩

/-- A run-time panic ends the process on the spot. -/
def goPanic {α : Type} (p : Panic) : Step α := ⟨[], .error (.panic p)⟩

/-- Record several events in order. -/
def emitAll (es : List Event) : Step Unit := ⟨es, .ok ()⟩

/-- The index expression `xs[i]` with Go's bounds check. -/
def index {α : Type} (xs : List α) (i : Int) : Step α :=
  if i < 0 then goPanic (.indexOutOfRange i xs.length)
  else match xs.get? i.toNat with
    | some x => Step.pure x
    | none => goPanic (.indexOutOfRange i xs.length)

/-- Two's-complement wrap-around of 64-bit `int` arithmetic. -/
def wrapInt64 (x : Int) : Int := (x + 2 ^ 63) % 2 ^ 64 - 2 ^ 63

/-! ## `fmt.Scanf("%d", &choice)` -/

/-- The scanner's limit on the number of characters it reads (`1 << 30`). -/
def hugeWid : Nat := 2 ^ 30

/-- The first `n` characters of the input. -/
def readLimit : List Char → Nat → List Char
  | [], _ => []
  | _ :: _, 0 => []
  | c :: cs, n + 1 => c :: readLimit cs n

/-- The `fmt` package's `isSpace`. -/
def isSpace (r : Char) : Bool :=
  let n := r.toNat
  (0x9 ≤ n ∧ n ≤ 0xd) ∨ n = 0x20 ∨ n = 0x85 ∨ n = 0xa0 ∨ n = 0x1680 ∨
    (0x2000 ≤ n ∧ n ≤ 0x200a) ∨ n = 0x2028 ∨ n = 0x2029 ∨ n = 0x202f ∨ n = 0x205f ∨ n = 0x3000

/-- `SkipSpace` of `Scanf`: spaces are skipped, a newline is an error (`none`);
a carriage return right before a newline is skipped like a space. -/
def SkipSpace : List Char → Option (List Char)
  | [] => some []
  | c :: cs =>
    if c = '\r' ∧ cs.head? = some '\n' then SkipSpace cs
    else if c = '\n' then none
    else if isSpace c then SkipSpace cs
    else some (c :: cs)

/-- Value of a string of decimal digits. -/
def decimalValue (ds : List Char) : Nat :=
  ds.foldl (fun acc c => acc * 10 + (c.toNat - '0'.toNat)) 0

/-- The range check of `strconv.ParseInt(tok, 10, 64)`. -/
def inInt64 (v : Int) : Option Int :=
  if -(2 : Int) ^ 63 ≤ v ∧ v < (2 : Int) ^ 63 then some v else none

/-- `fmt.Scanf("%d", &choice)` on the given standard input: the integer stored
into `choice`, or `none` when the scan fails (newline or end of input before
the number, no digit, value outside the 64-bit range) and `choice` is left
alone. Leading spaces, an optional sign and then decimal digits are read;
whatever follows the digits is not looked at. -/
def Scanf_d (stdin : List Char) : Option Int :=
  match SkipSpace (readLimit stdin hugeWid) with
  | none => none
  | some [] => none
  | some (c :: rest) =>
    let s := if c = '+' ∨ c = '-' then rest else c :: rest
    let tok := s.takeWhile isDigit
    if tok = [] then none
    else inInt64 (if c = '-' then -(decimalValue tok : Int) else (decimalValue tok : Int))

/-! ## `config.go` -/

def URL1 : String := "http://localhost:9081/api/k8sconfig/contexts"
def URL2 : String := "http://localhost:9081/api/k8sconfig"

def tokenName : String := "token"
def providerName : String := "meshery-provider"
def paramName : String := "k8sfile"
def contextName : String := "contextName"

/-- The name `file.Stat()` reports: the last element of the path the file was
opened with (trailing slashes removed first, a lone `/` kept). -/
def basename (name : String) : String :=
  let r := name.toList.reverse
  let stripped := match r.dropWhile (fun c => c = '/') with
    | [] => r.take 1
    | s => s
  match stripped with
  | [] => ""
  | c :: rest => String.mk (c :: rest.takeWhile (fun c => c ≠ '/')).reverse

/-- `UploadFileWithParams(uri, params, paramName, path)`; `n` says which writer
of the run this is, for the boundary it draws. `params` lists the map entries
in the order the `range` loop visits them. -/
def UploadFileWithParams (env : Env) (n : Nat) (uri : String) (params : GoMap)
    (paramName path : String) : Step (Except String Request) := do
  emit (.openFile path)
  match env.readFile path with
  | .error err => return .error err
  | .ok fileContents =>
    let writer := NewWriter (env.boundary n)
    let part := writer.CreateFormFile paramName (basename path)
    let part := part.Write fileContents
    let writer := params.foldl (fun w kv => w.WriteField kv.1 kv.2) part
    let writer := writer.Close
    match env.newRequestError "POST" uri with
    | some err => return .error err
    | none =>
      return .ok
        { method := "POST", url := uri,
          header := [("Content-Type", writer.FormDataContentType)], body := writer.w }

/-- `getContexts(configFile, tokenPath)`: the contexts, or the error. -/
def getContexts (env : Env) (configFile tokenPath : String) :
    Step (Except String (List String)) := do
  emit (.enterGetContexts configFile tokenPath)
  match ← UploadFileWithParams env 0 URL1 [] paramName configFile with
  | .error err => return .error err
  | .ok req =>
    emit (.addAuthDetails req tokenPath)
    match env.AddAuthDetails req tokenPath with
    | .error err => return .error err
    | .ok req =>
      emit (.clientDo req)
      match env.clientDo req with
      | .error err => return .error err
      | .ok (.error err) => return .error err
      | .ok (.ok body) => return .ok (decodeContexts body)

/-- `SetDefaultContext(configFile, cname, tokenPath)`: the error, if any. -/
def SetDefaultContext (env : Env) (configFile cname tokenPath : String) :
    Step (Option String) := do
  emit (.enterSetDefaultContext configFile cname tokenPath)
  let extraParams1 : GoMap := [("contextName", cname)]
  match ← UploadFileWithParams env 1 URL2 extraParams1 paramName configFile with
  | .error err => return some err
  | .ok req =>
    emit (.addAuthDetails req tokenPath)
    match env.AddAuthDetails req tokenPath with
    | .error err => return some err
    | .ok req =>
      emit (.clientDo req)
      match env.clientDo req with
      | .error err => return some err
      | .ok (.error err) => return some err
      | .ok (.ok body) =>
        emit (.printf "%v\n" [.str (String.mk body)])
        return none

/-- The events of the loop that prints the numbered list, starting at index `i`. -/
def listLines : Nat → List String → List Event
  | _, [] => []
  | i, ctx :: rest => .printf "(%d) %s \n" [.int (i + 1 : Nat), .str ctx] :: listLines (i + 1) rest

/-- Lines 153-175 of `Run`: the `switch` on the provider argument. -/
def provision (env : Env) (arg0 : String) : Step Unit := do
  if arg0 = "minikube" then
    emit .ScriptMinikube
    emit (.execRun "sh" ["-c", env.ScriptMinikube])
    match env.execRun "sh" ["-c", env.ScriptMinikube] with
    | some err => logFatal ("Error generating config:" ++ err)
    | none => pure ()
  else if arg0 = "gke" then
    emit (.StringWithCharset 8)
    let saName := "sa-meshery-" ++ env.StringWithCharset 8
    emit (.ScriptGKE saName "default")
    emit (.execRun "sh" ["-c", env.ScriptGKE saName "default"])
    match env.execRun "sh" ["-c", env.ScriptGKE saName "default"] with
    | some err => logFatal ("Error generating config:" ++ err)
    | none => pure ()
  else
    logFatal "The argument has to be one of GKE | Minikube"

/-- Lines 183-193 of `Run`: the first context, or with more than one context
the one the operator picks. The error of `Scanf` is not looked at: on a failed
scan `choice` still holds its zero value. -/
def chooseContext (env : Env) (contexts : List String) : Step String := do
  let choosenCtx ← index contexts 0
  if contexts.length > 1 then
    emit (.println [.str "List of available contexts : "])
    emitAll (listLines 0 contexts)
    emit (.print [.str "Enter choice: "])
    emit (.scanf "%d")
    let choice : Int := (Scanf_d env.stdin).getD 0
    index contexts (wrapInt64 (choice - 1))
  else pure choosenCtx

/-- Lines 178-181 of `Run`: discover the contexts; an error is fatal. With no
error and no context the condition holds as well, but `err` is nil there and
evaluating the argument `err.Error()` panics before `log.Fatalf` is entered. -/
def discover (env : Env) (configPath tokenPath : String) : Step (List String) := do
  match ← getContexts env configPath tokenPath with
  | .error err => logFatal ("Error getting contexts : " ++ err)
  | .ok contexts =>
    if contexts.length < 1 then goPanic .nilDereference else pure contexts

/-- Lines 195-199 of `Run`: set the chosen context; an error is fatal. -/
def applyContext (env : Env) (configPath choosenCtx tokenPath : String) : Step Unit := do
  emit (.logDebugf "Choosen context : %s" [.str choosenCtx])
  match ← SetDefaultContext env configPath choosenCtx tokenPath with
  | some err => logFatal ("Error setting context : " ++ err)
  | none => pure ()

/-- The `Run` function of `configCmd`, given the value of the `--token` flag and
the positional arguments. -/
def configCmd.Run (env : Env) (tokenPath : String) (args : List String) : Step Unit := do
  if tokenPath = "" then
    logFatal "Token path invalid"
  let arg0 ← index args 0
  provision env arg0
  let configPath := "/tmp/meshery/kubeconfig.yaml"
  let contexts ← discover env configPath tokenPath
  let choosenCtx ← chooseContext env contexts
  applyContext env configPath choosenCtx tokenPath

/-! ## JSON texts of string objects, and what enough fuel means -/

/-- The JSON array of objects whose members are the given string pairs. -/
def stringObjects (objs : List (List (String × String))) : JSON :=
  .arr (objs.map fun o => .obj (o.map fun kv => (kv.1, .str kv.2)))

/-- The value of the member named `k` of an object given by its members in
order of appearance (the last one if the name is repeated), `""` if there is
none. -/
def fieldOf (o : List (String × String)) (k : String) : String :=
  match o.reverse.find? (fun kv => kv.1 = k) with
  | some kv => kv.2
  | none => ""

/-- What fuel adequacy says of one of the three parsers. -/
def FuelOk {α : Type} (parse : Nat → List Char → Option (α × List Char)) (n : Nat) : Prop :=
  ∀ cs v r, parse n cs = some (v, r) →
    r.length < cs.length ∧ ∀ m, cs.length - r.length ≤ m → parse m cs = some (v, r)

/-! ## What a trace shows, the layout of a form, and an example environment -/

/-- The `SetDefaultContext` calls of a trace, with their arguments, in order. -/
def setDefaultContextCalls (t : List Event) : List (String × String × String) :=
  t.filterMap fun e => match e with
    | .enterSetDefaultContext configFile cname tokenPath => some (configFile, cname, tokenPath)
    | _ => none

/-- The commands a trace executes, in order. -/
def commandsRun (t : List Event) : List (String × List String) :=
  t.filterMap fun e => match e with
    | .execRun name argv => some (name, argv)
    | _ => none

/-- The event belongs to the interactive selection: the list header, a list
line, the prompt, or the read from standard input. -/
def isSelectionEvent : Event → Bool
  | .println _ => true
  | .print _ => true
  | .scanf _ => true
  | .printf format _ => format = "(%d) %s \n"
  | _ => false

/-- The event is one of the steps shared by both request functions or the
print of the response body. -/
def isUploadEvent : Event → Bool
  | .openFile _ => true
  | .addAuthDetails _ _ => true
  | .clientDo _ => true
  | .printf format _ => format = "%v\n"
  | _ => false

/-- The event belongs to the provisioning step. -/
def isProvisionEvent : Event → Bool
  | .ScriptMinikube => true
  | .ScriptGKE _ _ => true
  | .StringWithCharset _ => true
  | .execRun _ _ => true
  | _ => false

/-- The script generators a trace calls, in order. -/
def scriptsGenerated (t : List Event) : List Event :=
  t.filter fun e => match e with
    | .ScriptMinikube => true
    | .ScriptGKE _ _ => true
    | _ => false

/-- Events after provisioning: request work, selection, or logging. -/
def isLaterEvent (e : Event) : Bool :=
  isUploadEvent e || isSelectionEvent e ||
    match e with
    | .enterGetContexts _ _ => true
    | .enterSetDefaultContext _ _ _ => true
    | .logFatal _ => true
    | .logDebugf _ _ => true
    | _ => false

/-- The requests a trace builds: each one is handed to `utils.AddAuthDetails`
right after `UploadFileWithParams` returns it. -/
def requestsBuilt (t : List Event) : List Request :=
  t.filterMap fun e => match e with
    | .addAuthDetails req _ => some req
    | _ => none

/-- The messages a trace logs through `log.Fatal` / `log.Fatalf`. -/
def fatalMessages (t : List Event) : List String :=
  t.filterMap fun e => match e with
    | .logFatal msg => some msg
    | _ => none

/-- The text of a file part after its delimiter line: the two header lines, the
empty line and the contents. -/
def fileSection (fieldname filename : String) (contents : List Char) : List Char :=
  "Content-Disposition: form-data; name=\"".toList ++ escapeQuotes fieldname.toList ++
    "\"; filename=\"".toList ++ escapeQuotes filename.toList ++
    "\"\r\nContent-Type: application/octet-stream\r\n\r\n".toList ++ contents

/-- The text of a plain form field after its delimiter line. -/
def fieldSection (fieldname value : String) : List Char :=
  "Content-Disposition: form-data; name=\"".toList ++ escapeQuotes fieldname.toList ++
    "\"\r\n\r\n".toList ++ value.toList

/-- The layout of a `multipart/form-data` body (RFC 2046): every section
follows a line `--boundary` and ends with a line break; the line
`--boundary--` closes the body. -/
def formBody (boundary : String) (sections : List (List Char)) : List Char :=
  sections.flatMap (fun s => "--".toList ++ boundary.toList ++ "\r\n".toList ++ s ++ "\r\n".toList) ++
    "--".toList ++ boundary.toList ++ "--\r\n".toList

/-- An environment for examples: both scripts succeed, the kubeconfig exists,
credentials are attached as a cookie, the discovery endpoint answers with
`body` and the operator types `input`. -/
def demoEnv (body input : String) : Env where
  ScriptMinikube := "minikube-script"
  ScriptGKE := fun saName ns => "gke-script " ++ saName ++ " " ++ ns
  StringWithCharset := fun _ => "abcdefgh"
  execRun := fun _ _ => none
  readFile := fun path =>
    if path = "/tmp/meshery/kubeconfig.yaml" then .ok "apiVersion: v1".toList
    else .error "open: no such file or directory"
  boundary := fun n =>
    if n = 0 then "0123456789abcdef0123456789abcdef0123456789abcdef0123456789ab"
    else "fedcba9876543210fedcba9876543210fedcba9876543210fedcba987654"
  newRequestError := fun _ _ => none
  AddAuthDetails := fun req _ => .ok { req with header := req.header ++ [("Cookie", "token=t")] }
  clientDo := fun req =>
    if req.url = "http://localhost:9081/api/k8sconfig/contexts" then .ok (.ok body.toList)
    else .ok (.ok "ok".toList)
  stdin := input.toList

/-- The response body `[{"contextName":"ctx-a"}]`. -/
def oneContextBody : String := "[\x7b\"contextName\":\"ctx-a\"\x7d]"

/-- The response body `[{"contextName":"ctx-a"},{"contextName":"ctx-b"}]`. -/
def twoContextsBody : String :=
  "[\x7b\"contextName\":\"ctx-a\"\x7d,\x7b\"contextName\":\"ctx-b\"\x7d]"

/-- A response body with the three contexts `ctx-a`, `ctx-b`, `ctx-c`. -/
def threeContextsBody : String :=
  "[\x7b\"contextName\":\"ctx-a\"\x7d,\x7b\"contextName\":\"ctx-b\"\x7d,\x7b\"contextName\":\"ctx-c\"\x7d]"

/-- A response body cut off before the closing bracket. -/
def truncatedBody : String := "[\x7b\"contextName\":\"ctx-a\"\x7d"

/-- The request `getContexts` builds in `demoEnv`. -/
def demoListRequest : Request where
  method := "POST"
  url := "http://localhost:9081/api/k8sconfig/contexts"
  header := [("Content-Type",
    "multipart/form-data; boundary=0123456789abcdef0123456789abcdef0123456789abcdef0123456789ab")]
  body := ("--0123456789abcdef0123456789abcdef0123456789abcdef0123456789ab\r\n" ++
    "Content-Disposition: form-data; name=\"k8sfile\"; filename=\"kubeconfig.yaml\"\r\n" ++
    "Content-Type: application/octet-stream\r\n\r\n" ++
    "apiVersion: v1" ++
    "\r\n--0123456789abcdef0123456789abcdef0123456789abcdef0123456789ab--\r\n").toList

/-- The request `SetDefaultContext` builds in `demoEnv` for the context `ctx-b`. -/
def demoSetRequest : Request where
  method := "POST"
  url := "http://localhost:9081/api/k8sconfig"
  header := [("Content-Type",
    "multipart/form-data; boundary=fedcba9876543210fedcba9876543210fedcba9876543210fedcba987654")]
  body := ("--fedcba9876543210fedcba9876543210fedcba9876543210fedcba987654\r\n" ++
    "Content-Disposition: form-data; name=\"k8sfile\"; filename=\"kubeconfig.yaml\"\r\n" ++
    "Content-Type: application/octet-stream\r\n\r\n" ++
    "apiVersion: v1" ++
    "\r\n--fedcba9876543210fedcba9876543210fedcba9876543210fedcba987654\r\n" ++
    "Content-Disposition: form-data; name=\"contextName\"\r\n\r\n" ++
    "ctx-b" ++
    "\r\n--fedcba9876543210fedcba9876543210fedcba9876543210fedcba987654--\r\n").toList

/-! ## Reading a form back:
claim C8 speaks of decoding the request body with a standard multipart parser.
The decoder below follows Go's own readers (`mime.ParseMediaType`,
`textproto.ReadMIMEHeader`, `multipart.Reader.NextPart`, `Part.FormName`,
`Part.FileName`). -/

/-- One part of a decoded form: what `Part.FormName` and `Part.FileName` report
(`""` when absent) and the part's content. -/
structure FormPart where
  name : String
  filename : String
  content : List Char
deriving DecidableEq

/-- The `tspecials` of RFC 2045. -/
def isTSpecial (c : Char) : Bool := c ∈ "()<>@,;:\\\"/[]?=".toList

/-- A character that may occur in a token. -/
def isTokenChar (c : Char) : Bool := 0x20 < c.toNat ∧ c.toNat < 0x7f ∧ ¬ isTSpecial c

/-- Space or tab. -/
def isLWS (c : Char) : Bool := c = ' ' ∨ c = '\t'

/-- White space that `mime.ParseMediaType` skips. -/
def isMediaSpace (c : Char) : Bool :=
  c = ' ' ∨ c = '\t' ∨ c = '\n' ∨ c = '\r' ∨ c.toNat = 0x0b ∨ c.toNat = 0x0c ∨
    c.toNat = 0x85 ∨ c.toNat = 0xa0

/-- The body of a quoted string, after the opening quote: the value and the
input after the closing quote. A backslash escapes a following `tspecial` and
is literal otherwise; a line break inside the quotes is an error. The flag
says that the previous character was such a backslash. -/
def unquote : Bool → List Char → Option (List Char × List Char)
  | _, [] => none
  | false, c :: cs =>
    if c = '"' then some ([], cs)
    else if c = '\\' then unquote true cs
    else if c = '\r' ∨ c = '\n' then none
    else (unquote false cs).map fun p => (c :: p.1, p.2)
  | true, c :: cs =>
    if isTSpecial c then (unquote false cs).map fun p => (c :: p.1, p.2)
    else if c = '\r' ∨ c = '\n' then none
    else (unquote false cs).map fun p => ('\\' :: c :: p.1, p.2)

/-- `consumeValue`: a token or a quoted string. -/
def consumeValue (v : List Char) : Option (List Char × List Char) :=
  match v with
  | [] => none
  | c :: rest =>
    if c = '"' then unquote false rest
    else if v.takeWhile isTokenChar = [] then none
    else some (v.takeWhile isTokenChar, v.dropWhile isTokenChar)

/-- `consumeMediaParam`: one `; name=value`, the name in lower case. -/
def consumeMediaParam (v : List Char) : Option (String × String × List Char) :=
  match v.dropWhile isMediaSpace with
  | c :: rest =>
    if c = ';' then
      let r1 := rest.dropWhile isMediaSpace
      let param := r1.takeWhile isTokenChar
      if param = [] then none
      else match (r1.dropWhile isTokenChar).dropWhile isMediaSpace with
        | e :: r2 =>
          if e = '=' then
            (consumeValue (r2.dropWhile isMediaSpace)).map fun p =>
              (String.mk (param.map Char.toLower), String.mk p.1, p.2)
          else none
        | [] => none
    else none
  | [] => none

/-- The parameter loop of `mime.ParseMediaType`: the parameters read so far and
the text still to read. A trailing semicolon is ignored; a parameter given
twice with different values is an error. -/
def parseParams : Nat → List (String × String) → List Char → Option (List (String × String))
  | 0, _, _ => none
  | fuel + 1, params, v =>
    match v.dropWhile isMediaSpace with
    | [] => some params
    | c :: rest =>
      match consumeMediaParam (c :: rest) with
      | none =>
        if (c :: rest).filter (fun x => !isMediaSpace x) = [';'] ∧ c = ';' then some params
        else none
      | some (key, value, rest2) =>
        match params.find? (fun p => p.1 = key) with
        | some p => if p.2 = value then parseParams fuel params rest2 else none
        | none => parseParams fuel (params ++ [(key, value)]) rest2

/-- `mime.ParseMediaType` without the parameter continuations of RFC 2231: the
media type in lower case and the parameters. -/
def parseMediaType (v : List Char) : Option (String × List (String × String)) :=
  let base := v.takeWhile (fun c => c ≠ ';')
  let mediatype := ((base.dropWhile isMediaSpace).reverse.dropWhile isMediaSpace).reverse.map Char.toLower
  if mediatype = [] then none
  else (parseParams (v.length + 1) [] (v.dropWhile (fun c => c ≠ ';'))).map fun ps =>
    (String.mk mediatype, ps)

/-- The line `--boundary`. -/
def dashBoundary (b : String) : List Char := '-' :: '-' :: b.toList

/-- The delimiter that ends a part's content: a line break and `--boundary`. -/
def nlDashBoundary (b : String) : List Char := '\r' :: '\n' :: dashBoundary b

/-- What may follow `--boundary` for it to count as a delimiter
(`matchAfterPrefix`): the end of the input, a space, a tab, a line break
character, or `--`. -/
def validAfter : List Char → Bool
  | [] => true
  | c :: rest => c = ' ' || c = '\t' || c = '\r' || c = '\n' || (c = '-' && rest.head? = some '-')

/-- The content up to the first delimiter `d` and the input after that
delimiter; `none` when the input ends without one. -/
def findDelim (d : List Char) : List Char → Option (List Char × List Char)
  | [] => none
  | c :: cs =>
    if d.isPrefixOf (c :: cs) && validAfter ((c :: cs).drop d.length) then
      some ([], (c :: cs).drop d.length)
    else (findDelim d cs).map fun p => (c :: p.1, p.2)

/-- The content of a part: empty when the input starts with `--boundary`, else
everything up to the first line break followed by `--boundary`. -/
def partContent (b : String) (input : List Char) : Option (List Char × List Char) :=
  if (dashBoundary b).isPrefixOf input && validAfter (input.drop (dashBoundary b).length) then
    some ([], input.drop (dashBoundary b).length)
  else findDelim (nlDashBoundary b) input

/-- What follows `--boundary` on its line. -/
inductive AfterDelim where
  | next (rest : List Char)
  | final
  | bad
deriving DecidableEq

/-- Classify the text after `--boundary`: optional spaces and a line break
start the next part, `--` followed by optional spaces and a line break or the
end of the input closes the form, anything else is an error. -/
def afterDelim (s : List Char) : AfterDelim :=
  match s.dropWhile isLWS with
  | '\r' :: '\n' :: rest => .next rest
  | _ =>
    match s with
    | '-' :: '-' :: t =>
      match t.dropWhile isLWS with
      | [] => .final
      | '\r' :: '\n' :: _ => .final
      | _ => .bad
    | _ => .bad

/-- One line of a header block, without its line break (`\n` or `\r\n`), and the
input after it; `none` when the input ends before a line break. -/
def readLine (input : List Char) : Option (List Char × List Char) :=
  match input.dropWhile (fun c => c ≠ '\n') with
  | [] => none
  | _ :: rest =>
    let line := input.takeWhile (fun c => c ≠ '\n')
    some (if line.getLast? = some '\r' then line.dropLast else line, rest)

/-- A character allowed in a header field value (`validHeaderValueByte`): a tab
or anything that is not a control character. -/
def isHeaderValueChar (c : Char) : Bool := c = '\t' ∨ (0x20 ≤ c.toNat ∧ c.toNat ≠ 0x7f)

/-- Header names are compared in lower case. -/
def canonicalKey (k : List Char) : String := String.mk (k.map Char.toLower)

/-- `textproto.ReadMIMEHeader`, without folded lines: the header fields up to
the empty line and the input after it. A field name must be a token and a
field value must not contain control characters. -/
def parseHeaders : Nat → List Char → Option (List (String × String) × List Char)
  | 0, _ => none
  | fuel + 1, input =>
    match readLine input with
    | none => none
    | some (line, rest) =>
      let kv := (line.dropWhile isLWS).rdropWhile isLWS
      if kv = [] then some ([], rest)
      else if rest.head? = some ' ' ∨ rest.head? = some '\t' then none
      else
        match kv.dropWhile (fun c => c ≠ ':') with
        | [] => none
        | _ :: v =>
          let k := kv.takeWhile (fun c => c ≠ ':')
          if k.all isTokenChar ∧ v.all isHeaderValueChar then
            (parseHeaders fuel rest).map fun p =>
              if k = [] then p
              else ((canonicalKey k, String.mk (v.dropWhile isLWS)) :: p.1, p.2)
          else none

/-- The value of a parameter, `""` when it is absent. -/
def paramValue (params : List (String × String)) (key : String) : String :=
  match params.find? (fun p => p.1 = key) with
  | some p => p.2
  | none => ""

/-- The form part for a header block and a content: the `name` and `filename`
parameters of `Content-Disposition`; the name counts only for the disposition
`form-data`. -/
def toFormPart (headers : List (String × String)) (content : List Char) : FormPart :=
  match parseMediaType (paramValue headers "content-disposition").toList with
  | none => { name := "", filename := "", content := content }
  | some (t, params) =>
    { name := if t = "form-data" then paramValue params "name" else "",
      filename := paramValue params "filename", content := content }

/-- The parts after a delimiter line (`Reader.NextPart` until the closing
delimiter). -/
def readParts : Nat → String → List Char → Option (List FormPart)
  | 0, _, _ => none
  | fuel + 1, b, input =>
    if input.head? = some ' ' ∨ input.head? = some '\t' then none
    else
      match parseHeaders (input.length + 1) input with
      | none => none
      | some (headers, rest) =>
        match partContent b rest with
        | none => none
        | some (content, after) =>
          match afterDelim after with
          | .next rest2 => (readParts fuel b rest2).map fun ps => toFormPart headers content :: ps
          | .final => some [toFormPart headers content]
          | .bad => none

/-- Decode a body whose first line is `--boundary` (no preamble). -/
def readForm (b : String) (body : List Char) : Option (List FormPart) :=
  if (dashBoundary b).isPrefixOf body then
    match afterDelim (body.drop (dashBoundary b).length) with
    | .next rest => readParts (body.length + 1) b rest
    | .final => some []
    | .bad => none
  else none

/-- A standard decoder for `multipart/form-data`, after Go's `mime` and
`mime/multipart` readers: the boundary comes from the `Content-Type` value, and
the result lists the parts in order. Not covered, and answered with `none`:
a preamble before the first delimiter and folded header lines. -/
def decodeForm (contentType : String) (body : List Char) : Option (List FormPart) :=
  match parseMediaType contentType.toList with
  | none => none
  | some (t, params) =>
    if t = "multipart/form-data" ∧ paramValue params "boundary" ≠ "" then
      readForm (paramValue params "boundary") body
    else none

/-! ## The conditions of the round trip -/

/-- A character of the boundaries `multipart.NewWriter` draws: a lower-case
hexadecimal digit. -/
def isBoundaryChar (c : Char) : Bool := c ∈ "0123456789abcdef".toList

/-- The shape of the boundaries `multipart.NewWriter` draws: thirty random
bytes in hexadecimal. -/
def hexBoundary (b : String) : Prop :=
  b.length = 60 ∧ ∀ c ∈ b.toList, isBoundaryChar c = true

/-- The string can stand in a header line: it has no control character other
than a tab, so in particular no carriage return and no line feed. -/
def headerSafe (s : String) : Prop := ∀ c ∈ s.toList, isHeaderValueChar c = true

/-- The text of a form after its first `--boundary`: for every section the rest
of the delimiter line, the section and the next delimiter; `--` and a line
break after the last one. -/
def formTail (b : String) : List (List Char) → List Char
  | [] => "--\r\n".toList
  | s :: ss => "\r\n".toList ++ s ++ nlDashBoundary b ++ formTail b ss

/-- The section `s` of a form with boundary `b` is read back as the part `p`:
it does not start with a space or tab, whatever follows it its header block is
read (with at least three units of fuel) up to the content of `p`, the header
fields give the name and file name of `p`, and the content does not contain
`--boundary`. -/
def DecodesTo (b : String) (s : List Char) (p : FormPart) : Prop :=
  (∃ c t, s = c :: t ∧ c ≠ ' ' ∧ c ≠ '\t') ∧
    (∃ headers, toFormPart headers p.content = p ∧
      ∀ rest n, 3 ≤ n → parseHeaders n (s ++ rest) = some (headers, p.content ++ rest)) ∧
    ¬ dashBoundary b <:+: p.content

instance (b : String) : Decidable (hexBoundary b) := by
  unfold hexBoundary
  infer_instance

instance (s : String) : Decidable (headerSafe s) := by
  unfold headerSafe
  infer_instance

/-- The `Content-Disposition` value of a file part. -/
def dispositionFile (fieldname filename : List Char) : List Char :=
  "form-data".toList ++ (';' :: ' ' :: ("name".toList ++ '=' :: '"' :: (escapeQuotes fieldname ++
    '"' :: (';' :: ' ' :: ("filename".toList ++ '=' :: '"' :: (escapeQuotes filename ++ ['"']))))))

/-- The `Content-Disposition` value of a plain field. -/
def dispositionField (fieldname : List Char) : List Char :=
  "form-data".toList ++ (';' :: ' ' :: ("name".toList ++ '=' :: '"' :: (escapeQuotes fieldname ++
    ['"'])))

/-- Decode the body of a request with the boundary its `Content-Type` header
declares. -/
def decodeRequest (req : Request) : Option (List FormPart) :=
  decodeForm (paramValue req.header "Content-Type") req.body

/-- The form a decoder reads from the request `UploadFileWithParams` returns;
`none` when no request is returned or its body does not decode. -/
def uploadedForm (env : Env) (n : Nat) (uri : String) (params : GoMap)
    (fieldname path : String) : Option (List FormPart) :=
  match (UploadFileWithParams env n uri params fieldname path).result with
  | .ok (.ok req) => decodeRequest req
  | _ => none

/-- The example environment with a kubeconfig that contains the closing
delimiter of the first form written. -/
def collidingEnv : Env :=
  { demoEnv "" "" with
    readFile := fun _ =>
      .ok ("a\r\n--0123456789abcdef0123456789abcdef0123456789abcdef0123456789ab--\r\nb").toList }

/-- The example environment with every path readable. -/
def openEnv : Env :=
  { demoEnv "[]" "" with readFile := fun _ => .ok "apiVersion: v1".toList }

/-- A context name that carries a line break, the delimiter of the second form
written in the example environment, and the header block and value of a field
`admin`. -/
def smugglingName : String :=
  "x\r\n--fedcba9876543210fedcba9876543210fedcba9876543210fedcba987654\r\n" ++
    "Content-Disposition: form-data; name=\"admin\"\r\n\r\ntrue"

/-! ## The JSON parser never runs out of fuel -/

theorem scanString_length (mode : StrMode) (p : Option Nat) (cs : List Char) (s r : List Char)
    (h : scanString mode p cs = some (s, r)) : r.length < cs.length := by
  induction cs generalizing mode p s r with
  | nil => simp [scanString] at h
  | cons c cs ih =>
    cases mode with
    | plain =>
      simp only [scanString] at h
      split at h
      · simp only [Option.some.injEq, Prod.mk.injEq] at h
        rw [← h.2]; simp
      · split at h
        · have := ih _ _ _ _ h
          simp; omega
        · split at h
          · simp at h
          · simp only [Option.map_eq_some'] at h
            obtain ⟨⟨s', r'⟩, h1, h2⟩ := h
            simp only [Prod.mk.injEq] at h2
            have := ih _ _ _ _ h1
            rw [← h2.2]; simp; omega
    | esc =>
      simp only [scanString] at h
      split at h
      · have := ih _ _ _ _ h
        simp; omega
      · split at h
        · simp at h
        · simp only [Option.map_eq_some'] at h
          obtain ⟨⟨s', r'⟩, h1, h2⟩ := h
          simp only [Prod.mk.injEq] at h2
          have := ih _ _ _ _ h1
          rw [← h2.2]; simp; omega
    | hex left val =>
      simp only [scanString] at h
      split at h
      · simp at h
      · split at h
        · simp only [Option.map_eq_some'] at h
          obtain ⟨⟨s', r'⟩, h1, h2⟩ := h
          simp only [Prod.mk.injEq] at h2
          have := ih _ _ _ _ h1
          rw [← h2.2]; simp; omega
        · have := ih _ _ _ _ h
          simp; omega

theorem dropWhile_length_le (p : Char → Bool) (cs : List Char) :
    (cs.dropWhile p).length ≤ cs.length := by
  induction cs with
  | nil => simp
  | cons c cs ih =>
    simp only [List.dropWhile_cons]
    split
    · simp; omega
    · simp

theorem digits1_length (cs r : List Char) (h : digits1 cs = some r) : r.length < cs.length := by
  unfold digits1 at h
  split at h
  · split at h
    · simp only [Option.some.injEq] at h
      have := dropWhile_length_le isDigit ‹List Char›
      rw [← h]; simp; omega
    · simp at h
  · simp at h

theorem skipWs_length_le (cs : List Char) : (skipWs cs).length ≤ cs.length := by
  induction cs with
  | nil => simp [skipWs]
  | cons c cs ih =>
    simp only [skipWs]
    split
    · simp; omega
    · simp

theorem scanNumber_length (cs r : List Char) (h : scanNumber cs = some r) :
    r.length < cs.length := by
  unfold scanNumber at h
  simp only [Option.bind_eq_some] at h
  obtain ⟨s2, h2, h3⟩ := h
  obtain ⟨s1, h1, h2⟩ := h2
  generalize hA : (match cs with | '-' :: r => r | _ => cs) = a at h1
  have hs : a.length ≤ cs.length := by
    rw [← hA]
    split <;> simp
  have e1 : s1.length < cs.length := by
    cases a with
    | nil => simp at h1
    | cons c r0 =>
      simp only [List.length_cons] at hs
      simp only at h1
      split at h1
      · simp only [Option.some.injEq] at h1
        rw [← h1]; omega
      · split at h1
        · simp only [Option.some.injEq] at h1
          have := dropWhile_length_le isDigit r0
          rw [← h1]; omega
        · simp at h1
  have e2 : s2.length ≤ s1.length := by
    split at h2
    · have := digits1_length _ _ h2
      simp; omega
    · simp only [Option.some.injEq] at h2
      rw [h2]
  have e3 : r.length ≤ s2.length := by
    split at h3
    · split at h3
      · split at h3
        · have := digits1_length _ _ h3
          simp; omega
        · have := digits1_length _ _ h3
          simp; omega
        · have := digits1_length _ _ h3
          simp; omega
      · simp only [Option.some.injEq] at h3
        rw [← h3]
    · simp only [Option.some.injEq] at h3
      rw [← h3]
  omega

theorem stripWord_length (word cs r : List Char) (hw : word ≠ [])
    (h : stripWord word cs = some r) : r.length < cs.length := by
  unfold stripWord at h
  split at h
  · rename_i hp
    simp only [Option.some.injEq] at h
    have hle := (List.isPrefixOf_iff_prefix.mp hp).length_le
    have : 0 < word.length := List.length_pos.mpr hw
    rw [← h, List.length_drop]
    omega
  · simp at h

theorem parseValue_fuelOk_succ (n : Nat) (hE : FuelOk parseElems n) (hM : FuelOk parseMembers n) :
    FuelOk parseValue (n + 1) := by
  intro cs v r h
  cases cs with
  | nil => simp [parseValue] at h
  | cons c rest =>
    have hws := skipWs_length_le rest
    simp only [parseValue] at h
    split at h
    · -- object
      rename_i hc
      split at h
      · rename_i r0 heq
        simp only [Option.some.injEq, Prod.mk.injEq] at h
        obtain ⟨hv, hr⟩ := h
        subst hr
        rw [heq] at hws
        simp only [List.length_cons] at hws ⊢
        refine ⟨by omega, ?_⟩
        intro m hm
        obtain ⟨m', rfl⟩ : ∃ m', m = m' + 1 := ⟨m - 1, by omega⟩
        simp only [parseValue, hc, if_true, heq, hv]
      · rename_i hne
        simp only [Option.map_eq_some'] at h
        obtain ⟨⟨ms, r'⟩, h1, h2⟩ := h
        simp only [Prod.mk.injEq] at h2
        obtain ⟨hv, hr⟩ := h2
        subst hr
        obtain ⟨hlt, hfuel⟩ := hM _ _ _ h1
        simp only [List.length_cons] at hws ⊢
        refine ⟨by omega, ?_⟩
        intro m hm
        obtain ⟨m', rfl⟩ : ∃ m', m = m' + 1 := ⟨m - 1, by omega⟩
        simp only [parseValue, hc, if_true]
        rw [hfuel m' (by omega)]
        simp [hv]
    · rename_i hc1
      split at h
      · -- array
        rename_i hc
        split at h
        · rename_i r0 heq
          simp only [Option.some.injEq, Prod.mk.injEq] at h
          obtain ⟨hv, hr⟩ := h
          subst hr
          rw [heq] at hws
          simp only [List.length_cons] at hws ⊢
          refine ⟨by omega, ?_⟩
          intro m hm
          obtain ⟨m', rfl⟩ : ∃ m', m = m' + 1 := ⟨m - 1, by omega⟩
          subst hc
          simp [parseValue, heq, hv]
        · rename_i hne
          simp only [Option.map_eq_some'] at h
          obtain ⟨⟨ms, r'⟩, h1, h2⟩ := h
          simp only [Prod.mk.injEq] at h2
          obtain ⟨hv, hr⟩ := h2
          subst hr
          obtain ⟨hlt, hfuel⟩ := hE _ _ _ h1
          simp only [List.length_cons] at hws ⊢
          refine ⟨by omega, ?_⟩
          intro m hm
          obtain ⟨m', rfl⟩ : ∃ m', m = m' + 1 := ⟨m - 1, by omega⟩
          subst hc
          have hf := hfuel m' (by omega)
          simp only [parseValue, if_true, if_false, (by decide : ¬ '[' = '{')]
          rw [hf]
          simp [hv]
      · -- scalars: the result does not depend on the fuel
        have key : ∀ m, parseValue (m + 1) (c :: rest) = parseValue (n + 1) (c :: rest) := by
          intro m
          simp only [parseValue, hc1, if_false, *]
        have hsome : parseValue (n + 1) (c :: rest) = some (v, r) := by
          simp only [parseValue, hc1, if_false, *]
        have hlen : r.length < (c :: rest).length := by
          split at h
          · simp only [Option.map_eq_some'] at h
            obtain ⟨⟨s', r'⟩, h1, h2⟩ := h
            simp only [Prod.mk.injEq] at h2
            have := scanString_length _ _ _ _ _ h1
            rw [← h2.2]; simp; omega
          · split at h
            · simp only [Option.map_eq_some'] at h
              obtain ⟨r', h1, h2⟩ := h
              simp only [Prod.mk.injEq] at h2
              have := scanNumber_length _ _ h1
              rw [← h2.2]; exact this
            · split at h
              · simp only [Option.map_eq_some'] at h
                obtain ⟨r', h1, h2⟩ := h
                simp only [Prod.mk.injEq] at h2
                have := stripWord_length _ _ _ (by decide) h1
                rw [← h2.2]; exact this
              · split at h
                · simp only [Option.map_eq_some'] at h
                  obtain ⟨r', h1, h2⟩ := h
                  simp only [Prod.mk.injEq] at h2
                  have := stripWord_length _ _ _ (by decide) h1
                  rw [← h2.2]; exact this
                · split at h
                  · simp only [Option.map_eq_some'] at h
                    obtain ⟨r', h1, h2⟩ := h
                    simp only [Prod.mk.injEq] at h2
                    have := stripWord_length _ _ _ (by decide) h1
                    rw [← h2.2]; exact this
                  · simp at h
        refine ⟨hlen, ?_⟩
        intro m hm
        obtain ⟨m', rfl⟩ : ∃ m', m = m' + 1 := ⟨m - 1, by omega⟩
        rw [key, hsome]

theorem parseElems_fuelOk_succ (n : Nat) (hV : FuelOk parseValue n) (hE : FuelOk parseElems n) :
    FuelOk parseElems (n + 1) := by
  intro cs vs r h
  simp only [parseElems] at h
  split at h
  · simp at h
  · rename_i v r1 hv1
    obtain ⟨hlt1, hfuel1⟩ := hV _ _ _ hv1
    have hws := skipWs_length_le r1
    split at h
    · rename_i r2 heq
      simp only [Option.some.injEq, Prod.mk.injEq] at h
      obtain ⟨hvs, hr⟩ := h
      subst hr
      rw [heq] at hws
      simp only [List.length_cons] at hws
      refine ⟨by omega, ?_⟩
      intro m hm
      obtain ⟨m', rfl⟩ : ∃ m', m = m' + 1 := ⟨m - 1, by omega⟩
      simp only [parseElems, hfuel1 m' (by omega), heq, hvs]
    · rename_i r2 heq
      simp only [Option.map_eq_some'] at h
      obtain ⟨⟨vs', r'⟩, h1, h2⟩ := h
      simp only [Prod.mk.injEq] at h2
      obtain ⟨hvs, hr⟩ := h2
      subst hr
      obtain ⟨hlt2, hfuel2⟩ := hE _ _ _ h1
      have hws2 := skipWs_length_le r2
      rw [heq] at hws
      simp only [List.length_cons] at hws
      refine ⟨by omega, ?_⟩
      intro m hm
      obtain ⟨m', rfl⟩ : ∃ m', m = m' + 1 := ⟨m - 1, by omega⟩
      simp only [parseElems, hfuel1 m' (by omega), heq, hfuel2 m' (by omega)]
      simp [hvs]
    · simp at h

theorem parseMembers_fuelOk_succ (n : Nat) (hV : FuelOk parseValue n)
    (hM : FuelOk parseMembers n) : FuelOk parseMembers (n + 1) := by
  intro cs ms r h
  simp only [parseMembers] at h
  split at h
  · rename_i r0
    split at h
    · simp at h
    · rename_i k r1 hk
      have hlt0 := scanString_length _ _ _ _ _ hk
      have hws1 := skipWs_length_le r1
      split at h
      · rename_i r2 heq1
        rw [heq1] at hws1
        simp only [List.length_cons] at hws1
        have hws2 := skipWs_length_le r2
        split at h
        · simp at h
        · rename_i v r3 hv3
          obtain ⟨hlt3, hfuel3⟩ := hV _ _ _ hv3
          have hws3 := skipWs_length_le r3
          split at h
          · rename_i r4 heq4
            simp only [Option.some.injEq, Prod.mk.injEq] at h
            obtain ⟨hms, hr⟩ := h
            subst hr
            rw [heq4] at hws3
            simp only [List.length_cons] at hws3 ⊢
            refine ⟨by omega, ?_⟩
            intro m hm
            obtain ⟨m', rfl⟩ : ∃ m', m = m' + 1 := ⟨m - 1, by omega⟩
            simp only [parseMembers, hk, heq1, hfuel3 m' (by omega), heq4, hms]
          · rename_i r4 heq4
            simp only [Option.map_eq_some'] at h
            obtain ⟨⟨ms', r'⟩, h1, h2⟩ := h
            simp only [Prod.mk.injEq] at h2
            obtain ⟨hms, hr⟩ := h2
            subst hr
            obtain ⟨hlt5, hfuel5⟩ := hM _ _ _ h1
            have hws4 := skipWs_length_le r4
            rw [heq4] at hws3
            simp only [List.length_cons] at hws3 ⊢
            refine ⟨by omega, ?_⟩
            intro m hm
            obtain ⟨m', rfl⟩ : ∃ m', m = m' + 1 := ⟨m - 1, by omega⟩
            simp only [parseMembers, hk, heq1, hfuel3 m' (by omega), heq4, hfuel5 m' (by omega)]
            simp [hms]
          · simp at h
      · simp at h
  · simp at h

theorem parse_fuelOk (n : Nat) :
    FuelOk parseValue n ∧ FuelOk parseElems n ∧ FuelOk parseMembers n := by
  induction n with
  | zero =>
    refine ⟨?_, ?_, ?_⟩ <;> intro cs v r h
    · simp [parseValue] at h
    · simp [parseElems] at h
    · simp [parseMembers] at h
  | succ n ih =>
    exact ⟨parseValue_fuelOk_succ n ih.2.1 ih.2.2, parseElems_fuelOk_succ n ih.1 ih.2.1,
      parseMembers_fuelOk_succ n ih.1 ih.2.2⟩

/-- The fuel `parseJSON` supplies is always enough: if the text parses with any
amount of fuel, `parseJSON` returns that value. -/
theorem parseJSON_of_fuel (body : List Char) (fuel : Nat) (v : JSON) (rest : List Char)
    (h : parseValue fuel (skipWs body) = some (v, rest)) (hrest : skipWs rest = []) :
    parseJSON body = some v := by
  obtain ⟨hlt, hfuel⟩ := (parse_fuelOk fuel).1 _ _ _ h
  have hws := skipWs_length_le body
  unfold parseJSON
  rw [hfuel (body.length + 1) (by omega)]
  simp [hrest]

/-! ## Sequencing -/

theorem bind_ok {α β : Type} (x : Step α) (f : α → Step β) (a : α) (h : x.result = .ok a) :
    x >>= f = ⟨x.trace ++ (f a).trace, (f a).result⟩ := by
  show Step.bind x f = _
  simp [Step.bind, h]

theorem bind_halt {α β : Type} (x : Step α) (f : α → Step β) (e : Halt)
    (h : x.result = .error e) : x >>= f = ⟨x.trace, .error e⟩ := by
  show Step.bind x f = _
  simp [Step.bind, h]

@[simp] theorem bind_mk_ok {α β : Type} (t : List Event) (a : α) (f : α → Step β) :
    Step.bind (Step.mk t (.ok a)) f = ⟨t ++ (f a).trace, (f a).result⟩ := rfl

@[simp] theorem bind_mk_error {α β : Type} (t : List Event) (e : Halt) (f : α → Step β) :
    Step.bind (Step.mk t (.error e) : Step α) f = ⟨t, .error e⟩ := rfl

@[simp] theorem pure_eq_mk {α : Type} (a : α) : (pure a : Step α) = ⟨[], .ok a⟩ := rfl

@[simp] theorem bind_eq_mk {α β : Type} (x : Step α) (f : α → Step β) : x >>= f = Step.bind x f := rfl

/-! ## Decoding the discovery response -/

theorem GoMap.get_set (m : GoMap) (k v k' : String) :
    (m.set k v).get k' = if k = k' then v else m.get k' := by
  induction m with
  | nil =>
    by_cases h : k = k' <;> simp [GoMap.set, GoMap.get, h]
  | cons p rest ih =>
    obtain ⟨k0, v0⟩ := p
    by_cases h0 : k0 = k
    · subst h0
      by_cases h : k0 = k' <;> simp [GoMap.set, GoMap.get, h]
    · by_cases h : k = k'
      · subst h
        simp only [GoMap.set, h0, if_false]
        simp only [GoMap.get, List.find?, h0, decide_False] at ih ⊢
        simpa using ih
      · simp only [GoMap.set, h0, if_false]
        simp only [GoMap.get, List.find?] at ih ⊢
        by_cases h1 : k0 = k'
        · simp [h1, h]
        · simp only [h1, decide_False]
          simpa [h] using ih

theorem fieldOf_absent (o : List (String × String)) (k : String)
    (h : ∀ v, (k, v) ∉ o) : fieldOf o k = "" := by
  unfold fieldOf
  have : o.reverse.find? (fun kv => kv.1 = k) = none := by
    rw [List.find?_eq_none]
    intro x hx
    simp only [decide_eq_true_eq]
    intro hk
    apply h x.2
    rw [← hk]
    exact List.mem_reverse.mp hx
  rw [this]

theorem fieldOf_unique (o : List (String × String)) (k v : String)
    (hmem : (k, v) ∈ o) (huniq : ∀ v', (k, v') ∈ o → v' = v) : fieldOf o k = v := by
  unfold fieldOf
  cases hf : o.reverse.find? (fun kv => kv.1 = k) with
  | none =>
    rw [List.find?_eq_none] at hf
    have := hf (k, v) (List.mem_reverse.mpr hmem)
    simp at this
  | some kv =>
    have h1 := List.find?_some hf
    have h2 := List.mem_of_find?_eq_some hf
    simp only [decide_eq_true_eq] at h1
    obtain ⟨a, b⟩ := kv
    simp only at h1
    subst h1
    exact huniq b (List.mem_reverse.mp h2)

theorem decodeMembers_strings (o : List (String × String)) (acc : GoMap × Option String)
    (k : String) :
    (decodeMembers (o.map fun kv => (kv.1, JSON.str kv.2)) acc).1.get k =
      match o.reverse.find? (fun kv => kv.1 = k) with
      | some kv => kv.2
      | none => acc.1.get k := by
  induction o generalizing acc with
  | nil => simp [decodeMembers]
  | cons p rest ih =>
    obtain ⟨k0, v0⟩ := p
    simp only [List.map_cons, decodeMembers, decodeString, List.reverse_cons, List.find?_append]
    rw [ih]
    cases hf : rest.reverse.find? (fun kv => kv.1 = k) with
    | some kv => simp
    | none =>
      simp only [Option.none_or, GoMap.get_set, List.find?]
      by_cases h : k0 = k <;> simp [h]

theorem decodeMap_strings (o : List (String × String)) (k : String) :
    (decodeMap (.obj (o.map fun kv => (kv.1, JSON.str kv.2)))).1.get k = fieldOf o k := by
  simp only [decodeMap, decodeMembers_strings, fieldOf]
  cases o.reverse.find? (fun kv => kv.1 = k) <;> simp [GoMap.get]

theorem decodeElems_map (f : List (String × String) → JSON) (objs : List (List (String × String))) :
    (decodeElems (objs.map f)).1 = objs.map fun o => (decodeMap (f o)).1 := by
  induction objs with
  | nil => simp [decodeElems]
  | cons o rest ih => simp [decodeElems, ih]

theorem foldl_append_singleton {α β : Type} (f : α → β) (xs : List α) (init : List β) :
    xs.foldl (fun acc x => acc ++ [f x]) init = init ++ xs.map f := by
  induction xs generalizing init with
  | nil => simp
  | cons x rest ih => simp [ih]

theorem decodeContexts_stringObjects (body : List Char) (objs : List (List (String × String)))
    (h : parseJSON body = some (stringObjects objs)) :
    decodeContexts body = objs.map fun o => fieldOf o "contextName" := by
  simp only [decodeContexts, Unmarshal, h, stringObjects, decodeSlice, decodeElems_map,
    foldl_append_singleton, List.nil_append, List.map_map]
  apply List.map_congr_left
  intro o _
  exact decodeMap_strings o "contextName"

theorem decodeContexts_malformed (body : List Char) (h : parseJSON body = none) :
    decodeContexts body = [] := by
  simp [decodeContexts, Unmarshal, h]

theorem getContexts_result_of_body (env : Env) (configFile tokenPath : String) (req req' : Request)
    (body : List Char)
    (hreq : (UploadFileWithParams env 0 URL1 [] paramName configFile).result = .ok (.ok req))
    (hauth : env.AddAuthDetails req tokenPath = .ok req')
    (hdo : env.clientDo req' = .ok (.ok body)) :
    (getContexts env configFile tokenPath).result = .ok (.ok (decodeContexts body)) := by
  unfold getContexts
  generalize UploadFileWithParams env 0 URL1 [] paramName configFile = u at hreq
  obtain ⟨ut, ur⟩ := u
  simp only at hreq
  subst hreq
  simp [emit, hauth, hdo]

/-! ## The traces of the two request functions -/

theorem UploadFileWithParams_eq (env : Env) (n : Nat) (uri : String) (params : GoMap)
    (paramName path : String) :
    ∃ r, UploadFileWithParams env n uri params paramName path = ⟨[.openFile path], .ok r⟩ := by
  unfold UploadFileWithParams
  cases env.readFile path with
  | error e => exact ⟨_, rfl⟩
  | ok c =>
    cases h : env.newRequestError "POST" uri with
    | none => simp [emit, h, Step.bind]
    | some e => simp [emit, h, Step.bind]

theorem getContexts_shape (env : Env) (configFile tokenPath : String) :
    ∃ rest r, getContexts env configFile tokenPath =
        ⟨.enterGetContexts configFile tokenPath :: rest, .ok r⟩ ∧
      ∀ e ∈ rest, isUploadEvent e = true := by
  unfold getContexts
  obtain ⟨u, hu⟩ := UploadFileWithParams_eq env 0 URL1 [] paramName configFile
  rw [hu]
  cases u with
  | error e => simp [emit, isUploadEvent]
  | ok req =>
    cases h2 : env.AddAuthDetails req tokenPath with
    | error e => simp [emit, isUploadEvent, h2]
    | ok req' =>
      cases h3 : env.clientDo req' with
      | error e => simp [emit, isUploadEvent, h2, h3]
      | ok rd =>
        cases rd with
        | error e => simp [emit, isUploadEvent, h2, h3]
        | ok body => simp [emit, isUploadEvent, h2, h3]

theorem SetDefaultContext_shape (env : Env) (configFile cname tokenPath : String) :
    ∃ rest r, SetDefaultContext env configFile cname tokenPath =
        ⟨.enterSetDefaultContext configFile cname tokenPath :: rest, .ok r⟩ ∧
      ∀ e ∈ rest, isUploadEvent e = true := by
  unfold SetDefaultContext
  obtain ⟨u, hu⟩ := UploadFileWithParams_eq env 1 URL2 [("contextName", cname)] paramName configFile
  simp only [hu]
  cases u with
  | error e => simp [emit, isUploadEvent]
  | ok req =>
    cases h2 : env.AddAuthDetails req tokenPath with
    | error e => simp [emit, isUploadEvent, h2]
    | ok req' =>
      cases h3 : env.clientDo req' with
      | error e => simp [emit, isUploadEvent, h2, h3]
      | ok rd =>
        cases rd with
        | error e => simp [emit, isUploadEvent, h2, h3]
        | ok body => simp [emit, isUploadEvent, h2, h3]

theorem filterMap_eq_nil_of_upload {β : Type} (f : Event → Option β) (t : List Event)
    (hf : ∀ e, isUploadEvent e = true → f e = none) (ht : ∀ e ∈ t, isUploadEvent e = true) :
    t.filterMap f = [] := by
  rw [List.filterMap_eq_nil_iff]
  intro e he
  exact hf e (ht e he)

theorem setDefaultContextCalls_getContexts (env : Env) (configFile tokenPath : String) :
    setDefaultContextCalls (getContexts env configFile tokenPath).trace = [] := by
  obtain ⟨rest, r, h, hall⟩ := getContexts_shape env configFile tokenPath
  rw [h]
  simp only [setDefaultContextCalls, List.filterMap_cons]
  apply filterMap_eq_nil_of_upload _ _ _ hall
  intro e he
  cases e <;> simp_all [isUploadEvent]

theorem setDefaultContextCalls_SetDefaultContext (env : Env) (configFile cname tokenPath : String) :
    setDefaultContextCalls (SetDefaultContext env configFile cname tokenPath).trace =
      [(configFile, cname, tokenPath)] := by
  obtain ⟨rest, r, h, hall⟩ := SetDefaultContext_shape env configFile cname tokenPath
  rw [h]
  simp only [setDefaultContextCalls, List.filterMap_cons, List.cons.injEq, true_and]
  apply filterMap_eq_nil_of_upload _ _ _ hall
  intro e he
  cases e <;> simp_all [isUploadEvent]

theorem setDefaultContextCalls_provision (env : Env) (arg0 : String) :
    setDefaultContextCalls (provision env arg0).trace = [] := by
  unfold provision
  by_cases h1 : arg0 = "minikube"
  · simp only [h1, if_true]
    cases env.execRun "sh" ["-c", env.ScriptMinikube] <;>
      simp [emit, logFatal, Step.bind, setDefaultContextCalls]
  · by_cases h2 : arg0 = "gke"
    · simp only [h2, if_true]
      cases hx : env.execRun "sh" ["-c", env.ScriptGKE ("sa-meshery-" ++ env.StringWithCharset 8) "default"] <;>
        simp [emit, logFatal, Step.bind, setDefaultContextCalls, hx]
    · simp [h1, h2, logFatal, setDefaultContextCalls]

theorem setDefaultContextCalls_listLines (i : Nat) (contexts : List String) :
    setDefaultContextCalls (listLines i contexts) = [] := by
  induction contexts generalizing i with
  | nil => rfl
  | cons c rest ih => simpa [listLines, setDefaultContextCalls] using ih (i + 1)

theorem setDefaultContextCalls_append (s t : List Event) :
    setDefaultContextCalls (s ++ t) = setDefaultContextCalls s ++ setDefaultContextCalls t := by
  simp [setDefaultContextCalls]

/-! ## The steps of `Run` -/

theorem index_ok {α : Type} (xs : List α) (i : Int) (x : α) (h0 : 0 ≤ i)
    (hx : xs[i.toNat]? = some x) : index xs i = ⟨[], .ok x⟩ := by
  unfold index
  simp [not_lt.mpr h0, hx, Step.pure]

theorem inInt64_some (v k : Int) (h : inInt64 v = some k) :
    -(2 : Int) ^ 63 ≤ k ∧ k < (2 : Int) ^ 63 := by
  unfold inInt64 at h
  split at h
  · rename_i hr
    simp only [Option.some.injEq] at h
    rw [← h]
    exact hr
  · simp at h

theorem Scanf_d_range (stdin : List Char) (k : Int) (h : Scanf_d stdin = some k) :
    -(2 : Int) ^ 63 ≤ k ∧ k < (2 : Int) ^ 63 := by
  unfold Scanf_d at h
  split at h
  · simp at h
  · simp at h
  · have key : ∀ (tok : List Char) (v : Int),
        (if tok = [] then none else inInt64 v) = some k →
          -(2 : Int) ^ 63 ≤ k ∧ k < (2 : Int) ^ 63 := by
      intro tok v hv
      split at hv
      · simp at hv
      · exact inInt64_some _ _ hv
    exact key _ _ h

theorem wrapInt64_of_range (x : Int) (h0 : -(2 : Int) ^ 63 ≤ x) (h1 : x < (2 : Int) ^ 63) :
    wrapInt64 x = x := by
  unfold wrapInt64
  have : (x + 2 ^ 63) % 2 ^ 64 = x + 2 ^ 63 := by
    apply Int.emod_eq_of_lt <;> omega
  omega

theorem index_zero_cons {α : Type} (x : α) (xs : List α) : index (x :: xs) 0 = ⟨[], .ok x⟩ := by
  simp [index, Step.pure]

theorem discover_ok (env : Env) (configPath tokenPath : String) (contexts : List String)
    (hctx : (getContexts env configPath tokenPath).result = .ok (.ok contexts))
    (hne : 1 ≤ contexts.length) :
    discover env configPath tokenPath =
      ⟨(getContexts env configPath tokenPath).trace, .ok contexts⟩ := by
  unfold discover
  rw [bind_ok _ _ _ hctx]
  have : ¬ contexts.length < 1 := by omega
  simp [this]

theorem discover_empty (env : Env) (configPath tokenPath : String)
    (hctx : (getContexts env configPath tokenPath).result = .ok (.ok [])) :
    discover env configPath tokenPath =
      ⟨(getContexts env configPath tokenPath).trace, .error (.panic .nilDereference)⟩ := by
  unfold discover
  rw [bind_ok _ _ _ hctx]
  simp [goPanic]

theorem applyContext_calls (env : Env) (configPath choosenCtx tokenPath : String) :
    setDefaultContextCalls (applyContext env configPath choosenCtx tokenPath).trace =
      [(configPath, choosenCtx, tokenPath)] := by
  unfold applyContext
  have h := setDefaultContextCalls_SetDefaultContext env configPath choosenCtx tokenPath
  obtain ⟨rest, r, hs, -⟩ := SetDefaultContext_shape env configPath choosenCtx tokenPath
  rw [hs] at h ⊢
  cases r with
  | none => simpa [emit, Step.bind, setDefaultContextCalls] using h
  | some err => simpa [emit, Step.bind, logFatal, setDefaultContextCalls] using h

theorem Run_of_contexts (env : Env) (tokenPath arg : String) (contexts : List String)
    (htok : tokenPath ≠ "")
    (hprov : (provision env arg).result = .ok ())
    (hctx : (getContexts env "/tmp/meshery/kubeconfig.yaml" tokenPath).result = .ok (.ok contexts))
    (hne : 1 ≤ contexts.length) :
    configCmd.Run env tokenPath [arg] =
      ⟨(provision env arg).trace ++ ((getContexts env "/tmp/meshery/kubeconfig.yaml" tokenPath).trace ++
          ((chooseContext env contexts).bind fun c =>
            applyContext env "/tmp/meshery/kubeconfig.yaml" c tokenPath).trace),
        ((chooseContext env contexts).bind fun c =>
            applyContext env "/tmp/meshery/kubeconfig.yaml" c tokenPath).result⟩ := by
  unfold configCmd.Run
  simp only [htok, if_false, pure_eq_mk, bind_eq_mk, bind_mk_ok, index_zero_cons, List.nil_append]
  rw [← bind_eq_mk (provision env arg), bind_ok _ _ _ hprov]
  simp only [discover_ok env _ tokenPath contexts hctx hne, bind_mk_ok]

theorem bind_trace_forall {α β : Type} (P : Event → Prop) (x : Step α) (f : α → Step β)
    (hx : ∀ e ∈ x.trace, P e) (hf : ∀ a, ∀ e ∈ (f a).trace, P e) :
    ∀ e ∈ (x.bind f).trace, P e := by
  intro e he
  unfold Step.bind at he
  cases hr : x.result with
  | error h =>
    rw [hr] at he
    exact hx e he
  | ok a =>
    rw [hr] at he
    simp only [List.mem_append] at he
    cases he with
    | inl h => exact hx e h
    | inr h => exact hf a e h

theorem listLines_selection (i : Nat) (contexts : List String) :
    ∀ e ∈ listLines i contexts, isSelectionEvent e = true := by
  induction contexts generalizing i with
  | nil => simp [listLines]
  | cons c rest ih =>
    intro e he
    simp only [listLines, List.mem_cons] at he
    cases he with
    | inl h => subst h; simp [isSelectionEvent]
    | inr h => exact ih (i + 1) e h

theorem index_trace {α : Type} (xs : List α) (i : Int) : (index xs i).trace = [] := by
  unfold index
  split
  · rfl
  · split <;> rfl

theorem chooseContext_events (env : Env) (contexts : List String) :
    ∀ e ∈ (chooseContext env contexts).trace, isSelectionEvent e = true := by
  unfold chooseContext
  simp only [bind_eq_mk]
  apply bind_trace_forall
  · simp [index_trace]
  · intro a
    split
    · apply bind_trace_forall
      · simp [emit, isSelectionEvent]
      · intro _
        apply bind_trace_forall
        · simpa [emitAll] using listLines_selection 0 contexts
        · intro _
          apply bind_trace_forall
          · simp [emit, isSelectionEvent]
          · intro _
            apply bind_trace_forall
            · simp [emit, isSelectionEvent]
            · intro _
              simp [index_trace]
    · simp

theorem discover_events (env : Env) (configPath tokenPath : String) :
    ∀ e ∈ (discover env configPath tokenPath).trace, isLaterEvent e = true := by
  unfold discover
  obtain ⟨rest, r, h, hall⟩ := getContexts_shape env configPath tokenPath
  rw [h]
  have hrest : ∀ e ∈ rest, isLaterEvent e = true := by
    intro e he
    simp [isLaterEvent, hall e he]
  cases r with
  | error err =>
    simp only [bind_eq_mk, bind_mk_ok, logFatal, List.cons_append, List.mem_cons, List.mem_append]
    rintro e (h | h | h)
    · subst h; simp [isLaterEvent, isUploadEvent, isSelectionEvent]
    · exact hrest e h
    · simp only [List.mem_singleton, List.not_mem_nil, or_false] at h
      subst h; simp [isLaterEvent, isUploadEvent, isSelectionEvent]
  | ok contexts =>
    simp only [bind_eq_mk, bind_mk_ok]
    split
    · simp only [goPanic, List.append_nil, List.mem_cons]
      rintro e (h | h)
      · subst h; simp [isLaterEvent, isUploadEvent, isSelectionEvent]
      · exact hrest e h
    · simp only [pure_eq_mk, List.append_nil, List.mem_cons]
      rintro e (h | h)
      · subst h; simp [isLaterEvent, isUploadEvent, isSelectionEvent]
      · exact hrest e h

theorem applyContext_events (env : Env) (configPath choosenCtx tokenPath : String) :
    ∀ e ∈ (applyContext env configPath choosenCtx tokenPath).trace,
      isLaterEvent e = true ∧ isSelectionEvent e = false := by
  unfold applyContext
  obtain ⟨rest, r, h, hall⟩ := SetDefaultContext_shape env configPath choosenCtx tokenPath
  rw [h]
  have hrest : ∀ e ∈ rest, isLaterEvent e = true ∧ isSelectionEvent e = false := by
    intro e he
    have := hall e he
    refine ⟨by simp [isLaterEvent, this], ?_⟩
    cases e <;> simp_all [isUploadEvent, isSelectionEvent]
  cases r with
  | none =>
    simp only [bind_eq_mk, emit, bind_mk_ok, pure_eq_mk, List.cons_append, List.nil_append,
      List.append_nil, List.mem_cons]
    rintro e (h | h | h)
    · subst h; simp [isLaterEvent, isUploadEvent, isSelectionEvent]
    · subst h; simp [isLaterEvent, isUploadEvent, isSelectionEvent]
    · exact hrest e h
  | some err =>
    simp only [bind_eq_mk, emit, bind_mk_ok, logFatal, List.cons_append, List.nil_append,
      List.mem_cons, List.mem_append]
    rintro e (h | h | h | h)
    · subst h; simp [isLaterEvent, isUploadEvent, isSelectionEvent]
    · subst h; simp [isLaterEvent, isUploadEvent, isSelectionEvent]
    · exact hrest e h
    · simp only [List.mem_singleton, List.not_mem_nil, or_false] at h
      subst h; simp [isLaterEvent, isUploadEvent, isSelectionEvent]

/-! ## The run of the command -/

theorem provision_events (env : Env) (arg0 : String) :
    ∀ e ∈ (provision env arg0).trace,
      (isProvisionEvent e = true ∨ ∃ msg, e = .logFatal msg) ∧ isSelectionEvent e = false := by
  unfold provision
  by_cases h1 : arg0 = "minikube"
  · simp only [h1, if_true]
    cases env.execRun "sh" ["-c", env.ScriptMinikube] <;>
      simp [emit, logFatal, Step.bind, isProvisionEvent, isSelectionEvent]
  · by_cases h2 : arg0 = "gke"
    · simp only [h2, if_true]
      cases hx : env.execRun "sh" ["-c", env.ScriptGKE ("sa-meshery-" ++ env.StringWithCharset 8) "default"] <;>
        simp [emit, logFatal, Step.bind, isProvisionEvent, isSelectionEvent, hx]
    · simp [h1, h2, logFatal, isSelectionEvent]

theorem setDefaultContextCalls_of_not_enter (t : List Event)
    (h : ∀ e ∈ t, ∀ a b c, e ≠ .enterSetDefaultContext a b c) : setDefaultContextCalls t = [] := by
  unfold setDefaultContextCalls
  rw [List.filterMap_eq_nil_iff]
  intro e he
  have := h e he
  cases e <;> first | rfl | exact absurd rfl (this _ _ _)

theorem setDefaultContextCalls_chooseContext (env : Env) (contexts : List String) :
    setDefaultContextCalls (chooseContext env contexts).trace = [] := by
  apply setDefaultContextCalls_of_not_enter
  intro e he a b c hc
  have := chooseContext_events env contexts e he
  subst hc
  simp [isSelectionEvent] at this

theorem chooseContext_single (env : Env) (c : String) : chooseContext env [c] = ⟨[], .ok c⟩ := by
  unfold chooseContext
  simp [index_zero_cons]

theorem chooseContext_many (env : Env) (contexts : List String) (hn : 1 < contexts.length) :
    chooseContext env contexts =
      ⟨.println [.str "List of available contexts : "] ::
          (listLines 0 contexts ++ [.print [.str "Enter choice: "], .scanf "%d"]),
        (index contexts (wrapInt64 ((Scanf_d env.stdin).getD 0 - 1))).result⟩ := by
  unfold chooseContext
  obtain ⟨c0, rest, rfl⟩ : ∃ c0 rest, contexts = c0 :: rest := by
    cases contexts with
    | nil => simp at hn
    | cons c0 rest => exact ⟨_, _, rfl⟩
  rw [index_zero_cons]
  simp only [bind_eq_mk, bind_mk_ok, hn, if_true]
  simp [emit, emitAll, Step.bind, index_trace]

/-- Claim C2: after a successful provisioning step, when context discovery
returned `n > 1` contexts and `fmt.Scanf("%d", &choice)` reads an integer `k`
with `1 ≤ k ≤ n` from standard input, the run calls `SetDefaultContext` exactly
once, with the fixed kubeconfig path, the `k`-th listed context
`contexts[k-1]` and the token path. -/
theorem config_passes_chosen_context (env : Env) (tokenPath arg : String) (contexts : List String)
    (k : Int) (htok : tokenPath ≠ "")
    (hprov : (provision env arg).result = .ok ())
    (hctx : (getContexts env "/tmp/meshery/kubeconfig.yaml" tokenPath).result = .ok (.ok contexts))
    (hn : 1 < contexts.length)
    (hscan : Scanf_d env.stdin = some k) (hk1 : 1 ≤ k) (hkn : k ≤ contexts.length) :
    ∃ c, contexts[(k - 1).toNat]? = some c ∧
      setDefaultContextCalls (configCmd.Run env tokenPath [arg]).trace =
        [("/tmp/meshery/kubeconfig.yaml", c, tokenPath)] := by
  have hlt : (k - 1).toNat < contexts.length := by omega
  refine ⟨contexts[(k - 1).toNat], List.getElem?_eq_getElem hlt, ?_⟩
  have hr := Scanf_d_range _ _ hscan
  have hw : wrapInt64 (k - 1) = k - 1 := wrapInt64_of_range _ (by omega) (by omega)
  rw [Run_of_contexts env tokenPath arg contexts htok hprov hctx (by omega)]
  have hsel := chooseContext_many env contexts hn
  rw [hscan, Option.getD_some, hw,
    index_ok contexts (k - 1) _ (by omega) (List.getElem?_eq_getElem hlt)] at hsel
  have hch := setDefaultContextCalls_chooseContext env contexts
  rw [hsel] at hch ⊢
  simp only [bind_mk_ok, setDefaultContextCalls_append, setDefaultContextCalls_provision,
    setDefaultContextCalls_getContexts, hch, applyContext_calls, List.nil_append]

/-- Claim C3: after a successful provisioning step, when context discovery
returned exactly one context `c`, the run calls `SetDefaultContext` exactly
once, with `c`, and no event of the run is the list header, a list line, the
prompt or the read from standard input. -/
theorem config_single_context_no_prompt (env : Env) (tokenPath arg c : String)
    (htok : tokenPath ≠ "")
    (hprov : (provision env arg).result = .ok ())
    (hctx : (getContexts env "/tmp/meshery/kubeconfig.yaml" tokenPath).result = .ok (.ok [c])) :
    setDefaultContextCalls (configCmd.Run env tokenPath [arg]).trace =
        [("/tmp/meshery/kubeconfig.yaml", c, tokenPath)] ∧
      ∀ e ∈ (configCmd.Run env tokenPath [arg]).trace, isSelectionEvent e = false := by
  rw [Run_of_contexts env tokenPath arg [c] htok hprov hctx (by simp)]
  rw [chooseContext_single]
  simp only [bind_mk_ok, List.nil_append]
  constructor
  · simp only [setDefaultContextCalls_append, setDefaultContextCalls_provision,
      setDefaultContextCalls_getContexts, applyContext_calls, List.nil_append]
  · intro e he
    simp only [List.mem_append] at he
    rcases he with h | h | h
    · exact (provision_events env arg e h).2
    · obtain ⟨rest, r, hs, hall⟩ := getContexts_shape env "/tmp/meshery/kubeconfig.yaml" tokenPath
      rw [hs] at h
      simp only [List.mem_cons] at h
      rcases h with h | h
      · subst h; rfl
      · have := hall e h
        cases e <;> simp_all [isUploadEvent, isSelectionEvent]
    · exact (applyContext_events env _ c tokenPath e h).2

/-- Claim C5: with an empty token path the run consists of the single fatal log
`Token path invalid` followed by exit status 1, whatever the arguments are:
no script is run, and neither `getContexts` nor `SetDefaultContext` is
entered. -/
theorem config_empty_token_fatal (env : Env) (args : List String) :
    configCmd.Run env "" args = ⟨[.logFatal "Token path invalid"], .error (.exit 1)⟩ := by
  unfold configCmd.Run
  simp [logFatal, Step.bind]

theorem tail_events (env : Env) (tokenPath : String) :
    ∀ e ∈ ((discover env "/tmp/meshery/kubeconfig.yaml" tokenPath).bind fun contexts =>
        (chooseContext env contexts).bind fun choosenCtx =>
          applyContext env "/tmp/meshery/kubeconfig.yaml" choosenCtx tokenPath).trace,
      isLaterEvent e = true := by
  apply bind_trace_forall
  · exact discover_events env _ tokenPath
  · intro contexts
    apply bind_trace_forall
    · intro e he
      simp [isLaterEvent, chooseContext_events env contexts e he]
    · intro c e he
      exact (applyContext_events env _ c tokenPath e he).1

theorem Run_eq_provision_bind (env : Env) (tokenPath arg : String) (htok : tokenPath ≠ "") :
    configCmd.Run env tokenPath [arg] =
      (provision env arg).bind fun _ =>
        (discover env "/tmp/meshery/kubeconfig.yaml" tokenPath).bind fun contexts =>
          (chooseContext env contexts).bind fun choosenCtx =>
            applyContext env "/tmp/meshery/kubeconfig.yaml" choosenCtx tokenPath := by
  unfold configCmd.Run
  simp only [htok, if_false, pure_eq_mk, bind_eq_mk, bind_mk_ok, index_zero_cons, List.nil_append]

theorem commandsRun_later (t : List Event) (h : ∀ e ∈ t, isLaterEvent e = true) :
    commandsRun t = [] ∧ scriptsGenerated t = [] := by
  constructor
  · unfold commandsRun
    rw [List.filterMap_eq_nil_iff]
    intro e he
    have := h e he
    cases e <;> simp_all [isLaterEvent, isUploadEvent, isSelectionEvent]
  · unfold scriptsGenerated
    rw [List.filter_eq_nil_iff]
    intro e he
    have := h e he
    cases e <;> simp_all [isLaterEvent, isUploadEvent, isSelectionEvent]

theorem commandsRun_bind_later {α : Type} (x : Step Unit) (f : Unit → Step α)
    (hf : ∀ a, ∀ e ∈ (f a).trace, isLaterEvent e = true) :
    commandsRun (x.bind f).trace = commandsRun x.trace ∧
      scriptsGenerated (x.bind f).trace = scriptsGenerated x.trace := by
  unfold Step.bind
  cases hr : x.result with
  | error h => simp
  | ok a =>
    have := commandsRun_later _ (hf a)
    simp only [commandsRun, scriptsGenerated] at this ⊢
    simp [this.1, this.2]

/-- Claim C4: with a non-empty token path, the argument `minikube` makes the run
execute exactly one command, `sh -c` on the script of `utils.ScriptMinikube`,
and call no other script generator; the argument `gke` makes it execute
exactly one command, `sh -c` on the script of `utils.ScriptGKE` for the
service account `sa-meshery-` plus eight random characters and the namespace
`default`, and call no other script generator; every other argument ends the
run with the single fatal log `The argument has to be one of GKE | Minikube`
and exit status 1, so no script is run and no request function is entered. -/
theorem config_dispatch (env : Env) (tokenPath : String) (htok : tokenPath ≠ "") :
    (commandsRun (configCmd.Run env tokenPath ["minikube"]).trace =
        [("sh", ["-c", env.ScriptMinikube])] ∧
      scriptsGenerated (configCmd.Run env tokenPath ["minikube"]).trace = [.ScriptMinikube]) ∧
    (commandsRun (configCmd.Run env tokenPath ["gke"]).trace =
        [("sh", ["-c", env.ScriptGKE ("sa-meshery-" ++ env.StringWithCharset 8) "default"])] ∧
      scriptsGenerated (configCmd.Run env tokenPath ["gke"]).trace =
        [.ScriptGKE ("sa-meshery-" ++ env.StringWithCharset 8) "default"]) ∧
    ∀ arg, arg ≠ "minikube" → arg ≠ "gke" →
      configCmd.Run env tokenPath [arg] =
        ⟨[.logFatal "The argument has to be one of GKE | Minikube"], .error (.exit 1)⟩ := by
  refine ⟨?_, ?_, ?_⟩
  · rw [Run_eq_provision_bind env tokenPath _ htok]
    have h := commandsRun_bind_later (provision env "minikube") _ (fun _ => tail_events env tokenPath)
    rw [h.1, h.2]
    unfold provision
    cases env.execRun "sh" ["-c", env.ScriptMinikube] <;>
      simp [emit, logFatal, Step.bind, commandsRun, scriptsGenerated]
  · rw [Run_eq_provision_bind env tokenPath _ htok]
    have h := commandsRun_bind_later (provision env "gke") _ (fun _ => tail_events env tokenPath)
    rw [h.1, h.2]
    unfold provision
    cases hx : env.execRun "sh" ["-c", env.ScriptGKE ("sa-meshery-" ++ env.StringWithCharset 8) "default"] <;>
      simp [emit, logFatal, Step.bind, commandsRun, scriptsGenerated, hx]
  · intro arg h1 h2
    rw [Run_eq_provision_bind env tokenPath _ htok]
    unfold provision
    simp [h1, h2, logFatal, Step.bind]

theorem index_out_of_range {α : Type} (xs : List α) (i : Int)
    (h : ¬ (0 ≤ i ∧ i < xs.length)) :
    index xs i = ⟨[], .error (.panic (.indexOutOfRange i xs.length))⟩ := by
  unfold index
  by_cases h0 : i < 0
  · simp [h0, goPanic]
  · have hlen : xs.length ≤ i.toNat := by omega
    simp [h0, goPanic, List.getElem?_eq_none hlen]

theorem wrapInt64_min : wrapInt64 (-(2 : Int) ^ 63 - 1) = (2 : Int) ^ 63 - 1 := by
  decide

/-- Claim C10: after a successful provisioning step and a discovery of `n > 1`
contexts (`n` below `2 ^ 63`, as every slice length is), the index `choice - 1`
is within the bounds of the context list exactly when `Scanf` read an integer
`k` with `1 ≤ k ≤ n`; a failed scan leaves `choice` at zero and gives index
`-1`; and for every input that is not such a `k` the run ends in the
index-out-of-range panic at that index without any call of
`SetDefaultContext`. -/
theorem config_choice_bounds (env : Env) (tokenPath arg : String) (contexts : List String)
    (htok : tokenPath ≠ "")
    (hprov : (provision env arg).result = .ok ())
    (hctx : (getContexts env "/tmp/meshery/kubeconfig.yaml" tokenPath).result = .ok (.ok contexts))
    (hn : 1 < contexts.length) (hlen : (contexts.length : Int) < 2 ^ 63) :
    ((0 ≤ wrapInt64 ((Scanf_d env.stdin).getD 0 - 1) ∧
        wrapInt64 ((Scanf_d env.stdin).getD 0 - 1) < contexts.length) ↔
      ∃ k, Scanf_d env.stdin = some k ∧ 1 ≤ k ∧ k ≤ contexts.length) ∧
    (Scanf_d env.stdin = none → wrapInt64 ((Scanf_d env.stdin).getD 0 - 1) = -1) ∧
    ((¬ ∃ k, Scanf_d env.stdin = some k ∧ 1 ≤ k ∧ k ≤ contexts.length) →
      (configCmd.Run env tokenPath [arg]).result =
          .error (.panic (.indexOutOfRange (wrapInt64 ((Scanf_d env.stdin).getD 0 - 1))
            contexts.length)) ∧
        setDefaultContextCalls (configCmd.Run env tokenPath [arg]).trace = []) := by
  have hiff : (0 ≤ wrapInt64 ((Scanf_d env.stdin).getD 0 - 1) ∧
        wrapInt64 ((Scanf_d env.stdin).getD 0 - 1) < contexts.length) ↔
      ∃ k, Scanf_d env.stdin = some k ∧ 1 ≤ k ∧ k ≤ contexts.length := by
    cases hs : Scanf_d env.stdin with
    | none =>
      have hw : wrapInt64 (0 - 1) = -1 := by decide
      simp only [Option.getD_none, hw]
      constructor
      · intro h; omega
      · rintro ⟨k, hk, -⟩
        simp at hk
    | some k =>
      have hr := Scanf_d_range _ _ hs
      simp only [Option.getD_some, Option.some.injEq, exists_eq_left']
      by_cases hmin : k = -(2 : Int) ^ 63
      · subst hmin
        rw [wrapInt64_min]
        constructor
        · intro h; omega
        · intro h; omega
      · rw [wrapInt64_of_range (k - 1) (by omega) (by omega)]
        constructor
        · intro h; omega
        · intro h; omega
  refine ⟨hiff, ?_, ?_⟩
  · intro hs
    rw [hs]
    decide
  · intro hno
    rw [Run_of_contexts env tokenPath arg contexts htok hprov hctx (by omega)]
    have hsel := chooseContext_many env contexts hn
    rw [index_out_of_range contexts _ (fun h => hno (hiff.mp h))] at hsel
    have hch := setDefaultContextCalls_chooseContext env contexts
    rw [hsel] at hch ⊢
    simp only [bind_mk_error, setDefaultContextCalls_append, setDefaultContextCalls_provision,
      setDefaultContextCalls_getContexts, hch, List.append_nil, and_self]

/-! ## What `getContexts` returns -/

/-- Claim C1: when the request goes through and the response body is the JSON
text of an array of `n` objects whose members are all strings, `getContexts`
returns no error and a list of exactly `n` names, in array order, whose
`i`-th element is the `contextName` member of the `i`-th object (the last one
if the object repeats the name, as in a Go map): the empty string when the
object has no such member, and the member's value when it has one value
for it. -/
theorem getContexts_projects_contextName (env : Env) (configFile tokenPath : String)
    (req req' : Request) (body : List Char) (objs : List (List (String × String)))
    (hreq : (UploadFileWithParams env 0 URL1 [] paramName configFile).result = .ok (.ok req))
    (hauth : env.AddAuthDetails req tokenPath = .ok req')
    (hdo : env.clientDo req' = .ok (.ok body))
    (hbody : parseJSON body = some (stringObjects objs)) :
    ∃ contexts, (getContexts env configFile tokenPath).result = .ok (.ok contexts) ∧
      contexts = objs.map (fun o => fieldOf o "contextName") ∧
      contexts.length = objs.length ∧
      ∀ (i : Nat) (o : List (String × String)), objs[i]? = some o → ∃ c, contexts[i]? = some c ∧
        ((∀ v, ("contextName", v) ∉ o) → c = "") ∧
        (∀ v, ("contextName", v) ∈ o → (∀ w, ("contextName", w) ∈ o → w = v) → c = v) := by
  refine ⟨_, ?_, rfl, by simp, ?_⟩
  · rw [getContexts_result_of_body env configFile tokenPath req req' body hreq hauth hdo,
      decodeContexts_stringObjects body objs hbody]
  · intro i o hi
    refine ⟨fieldOf o "contextName", by simp [hi], fieldOf_absent o _, ?_⟩
    intro v hv hu
    exact fieldOf_unique o _ v hv hu

/-- Claim C7: when the request goes through and the response body is not
well-formed JSON, `json.Unmarshal` reports an error, which `getContexts`
discards, and `getContexts` returns the empty list of contexts and a nil
error. -/
theorem getContexts_malformed_json (env : Env) (configFile tokenPath : String)
    (req req' : Request) (body : List Char)
    (hreq : (UploadFileWithParams env 0 URL1 [] paramName configFile).result = .ok (.ok req))
    (hauth : env.AddAuthDetails req tokenPath = .ok req')
    (hdo : env.clientDo req' = .ok (.ok body))
    (hbody : parseJSON body = none) :
    (Unmarshal body []).2 ≠ none ∧
      (getContexts env configFile tokenPath).result = .ok (.ok []) := by
  constructor
  · simp [Unmarshal, hbody]
  · rw [getContexts_result_of_body env configFile tokenPath req req' body hreq hauth hdo,
      decodeContexts_malformed body hbody]

/-! ## The body `UploadFileWithParams` writes -/

theorem foldl_WriteField_w (params : GoMap) (wr : Writer) (hl : wr.lastpart = true) :
    (params.foldl (fun w kv => w.WriteField kv.1 kv.2) wr).w =
        wr.w ++ params.flatMap (fun kv =>
          "\r\n--".toList ++ wr.boundary.toList ++ "\r\n".toList ++ fieldSection kv.1 kv.2) ∧
      (params.foldl (fun w kv => w.WriteField kv.1 kv.2) wr).boundary = wr.boundary := by
  induction params generalizing wr with
  | nil => simp
  | cons kv rest ih =>
    have h := ih (wr.WriteField kv.1 kv.2) (by simp [Writer.WriteField, Writer.CreatePart, Writer.Write])
    simp only [List.foldl_cons, h.1, h.2, List.flatMap_cons]
    simp [Writer.WriteField, Writer.CreatePart, Writer.Write, hl, fieldSection]

theorem formBody_cons (b : String) (s : List Char) (ss : List (List Char)) :
    formBody b (s :: ss) =
      "--".toList ++ b.toList ++ "\r\n".toList ++ s ++
        ss.flatMap (fun s => "\r\n--".toList ++ b.toList ++ "\r\n".toList ++ s) ++
        "\r\n--".toList ++ b.toList ++ "--\r\n".toList := by
  induction ss generalizing s with
  | nil => simp [formBody]
  | cons s2 rest ih =>
    have h := ih s2
    simp only [formBody, List.flatMap_cons, List.append_assoc] at h ⊢
    rw [h]
    simp

theorem upload_body (b fieldname filename : String) (contents : List Char) (params : GoMap) :
    ((params.foldl (fun w kv => w.WriteField kv.1 kv.2)
        (((NewWriter b).CreateFormFile fieldname filename).Write contents)).Close).w =
      formBody b (fileSection fieldname filename contents ::
        params.map fun kv => fieldSection kv.1 kv.2) := by
  have h := foldl_WriteField_w params
    (((NewWriter b).CreateFormFile fieldname filename).Write contents)
    (by simp [NewWriter, Writer.CreateFormFile, Writer.CreatePart, Writer.Write])
  rw [formBody_cons]
  simp only [Writer.Close, h.1, h.2]
  simp [NewWriter, Writer.CreateFormFile, Writer.CreatePart, Writer.Write, fileSection,
    List.flatMap_map]

theorem upload_contentType (b fieldname filename : String) (contents : List Char)
    (params : GoMap) :
    ((params.foldl (fun w kv => w.WriteField kv.1 kv.2)
        (((NewWriter b).CreateFormFile fieldname filename).Write contents)).Close).FormDataContentType =
      (NewWriter b).FormDataContentType := by
  have h := foldl_WriteField_w params
    (((NewWriter b).CreateFormFile fieldname filename).Write contents)
    (by simp [NewWriter, Writer.CreateFormFile, Writer.CreatePart, Writer.Write])
  have hb : (params.foldl (fun w kv => w.WriteField kv.1 kv.2)
      (((NewWriter b).CreateFormFile fieldname filename).Write contents)).boundary = b := h.2
  simp only [Writer.FormDataContentType, Writer.Close, hb]
  rfl

theorem UploadFileWithParams_ok (env : Env) (n : Nat) (uri : String) (params : GoMap)
    (fieldname path : String) (contents : List Char)
    (hfile : env.readFile path = .ok contents) (hnew : env.newRequestError "POST" uri = none) :
    UploadFileWithParams env n uri params fieldname path =
      ⟨[.openFile path], .ok (.ok
        { method := "POST", url := uri,
          header := [("Content-Type", (NewWriter (env.boundary n)).FormDataContentType)],
          body := formBody (env.boundary n)
            (fileSection fieldname (basename path) contents ::
              params.map fun kv => fieldSection kv.1 kv.2) })⟩ := by
  unfold UploadFileWithParams
  simp only [hfile, hnew, bind_eq_mk, emit, bind_mk_ok, pure_eq_mk, List.append_nil,
    upload_body, upload_contentType]

theorem UploadFileWithParams_result (env : Env) (n : Nat) (uri : String) (params : GoMap)
    (fieldname path : String) (req : Request)
    (h : (UploadFileWithParams env n uri params fieldname path).result = .ok (.ok req)) :
    ∃ contents, env.readFile path = .ok contents ∧
      req = { method := "POST", url := uri,
              header := [("Content-Type", (NewWriter (env.boundary n)).FormDataContentType)],
              body := formBody (env.boundary n)
                (fileSection fieldname (basename path) contents ::
                  params.map fun kv => fieldSection kv.1 kv.2) } := by
  cases hfile : env.readFile path with
  | error e =>
    unfold UploadFileWithParams at h
    simp [hfile, emit, Step.bind] at h
  | ok contents =>
    cases hnew : env.newRequestError "POST" uri with
    | some e =>
      unfold UploadFileWithParams at h
      simp [hfile, hnew, emit, Step.bind] at h
    | none =>
      rw [UploadFileWithParams_ok env n uri params fieldname path contents hfile hnew] at h
      simp only [Except.ok.injEq] at h
      exact ⟨contents, rfl, h.symm⟩

/-! ## The requests the two functions build -/

theorem requestsBuilt_SetDefaultContext (env : Env) (configFile cname tokenPath : String) :
    requestsBuilt (SetDefaultContext env configFile cname tokenPath).trace =
      match (UploadFileWithParams env 1 URL2 [("contextName", cname)] paramName configFile).result with
      | .ok (.ok req) => [req]
      | _ => [] := by
  unfold SetDefaultContext
  obtain ⟨u, hu⟩ := UploadFileWithParams_eq env 1 URL2 [("contextName", cname)] paramName configFile
  simp only [hu]
  cases u with
  | error e => simp [emit, requestsBuilt]
  | ok req =>
    cases h2 : env.AddAuthDetails req tokenPath with
    | error e => simp [emit, requestsBuilt, h2]
    | ok req' =>
      cases h3 : env.clientDo req' with
      | error e => simp [emit, requestsBuilt, h2, h3]
      | ok rd =>
        cases rd with
        | error e => simp [emit, requestsBuilt, h2, h3]
        | ok body => simp [emit, requestsBuilt, h2, h3]

theorem requestsBuilt_getContexts (env : Env) (configFile tokenPath : String) :
    requestsBuilt (getContexts env configFile tokenPath).trace =
      match (UploadFileWithParams env 0 URL1 [] paramName configFile).result with
      | .ok (.ok req) => [req]
      | _ => [] := by
  unfold getContexts
  obtain ⟨u, hu⟩ := UploadFileWithParams_eq env 0 URL1 [] paramName configFile
  simp only [hu]
  cases u with
  | error e => simp [emit, requestsBuilt]
  | ok req =>
    cases h2 : env.AddAuthDetails req tokenPath with
    | error e => simp [emit, requestsBuilt, h2]
    | ok req' =>
      cases h3 : env.clientDo req' with
      | error e => simp [emit, requestsBuilt, h2, h3]
      | ok rd =>
        cases rd with
        | error e => simp [emit, requestsBuilt, h2, h3]
        | ok body => simp [emit, requestsBuilt, h2, h3]

/-! ## An empty discovery result -/

set_option maxRecDepth 100000 in
/-- Claim C6 fails on the code: when discovery succeeds with the body `[]`,
`getContexts` returns an empty list and a nil error, and the run then ends in
a nil-dereference panic (the argument `err.Error()` of `log.Fatalf` is
evaluated with `err` nil) without logging any fatal message; as the claim
says, `SetDefaultContext` is not called. -/
theorem config_empty_contexts_panics :
    (getContexts (demoEnv "[]" "") "/tmp/meshery/kubeconfig.yaml" "tok").result = .ok (.ok []) ∧
      (configCmd.Run (demoEnv "[]" "") "tok" ["minikube"]).result =
        .error (.panic .nilDereference) ∧
      fatalMessages (configCmd.Run (demoEnv "[]" "") "tok" ["minikube"]).trace = [] ∧
      setDefaultContextCalls (configCmd.Run (demoEnv "[]" "") "tok" ["minikube"]).trace = [] := by
  decide

/-! ## Examples -/

set_option maxRecDepth 100000 in
/-- The example of the spec: two objects give `ctx-a`, `ctx-b` in that order. -/
theorem getContexts_projects_contextName_witness :
    ∃ contexts,
      (getContexts (demoEnv twoContextsBody "")
        "/tmp/meshery/kubeconfig.yaml" "tok").result = .ok (.ok contexts) ∧
      contexts = ["ctx-a", "ctx-b"] := by
  obtain ⟨contexts, h1, h2, -⟩ := getContexts_projects_contextName
    (demoEnv twoContextsBody "")
    "/tmp/meshery/kubeconfig.yaml" "tok" demoListRequest
    { demoListRequest with header := demoListRequest.header ++ [("Cookie", "token=t")] }
    twoContextsBody.toList
    [[("contextName", "ctx-a")], [("contextName", "ctx-b")]]
    (by decide) (by decide) (by decide) (by rfl)
  exact ⟨contexts, h1, by rw [h2]; decide⟩

set_option maxRecDepth 100000 in
/-- The example of the spec: three contexts and the input `2`. -/
theorem config_passes_chosen_context_witness :
    ∃ c, ["ctx-a", "ctx-b", "ctx-c"][((2 : Int) - 1).toNat]? = some c ∧
      setDefaultContextCalls (configCmd.Run
        (demoEnv threeContextsBody "2\n")
        "tok" ["minikube"]).trace = [("/tmp/meshery/kubeconfig.yaml", c, "tok")] :=
  config_passes_chosen_context
    (demoEnv threeContextsBody "2\n")
    "tok" "minikube" ["ctx-a", "ctx-b", "ctx-c"] 2
    (by decide) (by decide) (by decide) (by decide) (by decide) (by decide) (by decide)

set_option maxRecDepth 100000 in
/-- One discovered context in the example environment. -/
theorem config_single_context_no_prompt_witness :
    setDefaultContextCalls (configCmd.Run (demoEnv oneContextBody "") "tok"
        ["gke"]).trace = [("/tmp/meshery/kubeconfig.yaml", "ctx-a", "tok")] ∧
      ∀ e ∈ (configCmd.Run (demoEnv oneContextBody "") "tok" ["gke"]).trace,
        isSelectionEvent e = false :=
  config_single_context_no_prompt (demoEnv oneContextBody "") "tok" "gke" "ctx-a"
    (by decide) (by decide) (by decide)

/-- The three kinds of argument in the example environment; `GKE` in capitals
is not a provider. -/
theorem config_dispatch_witness :
    commandsRun (configCmd.Run (demoEnv "[]" "") "tok" ["minikube"]).trace =
        [("sh", ["-c", "minikube-script"])] ∧
      commandsRun (configCmd.Run (demoEnv "[]" "") "tok" ["gke"]).trace =
        [("sh", ["-c", "gke-script sa-meshery-abcdefgh default"])] ∧
      configCmd.Run (demoEnv "[]" "") "tok" ["GKE"] =
        ⟨[.logFatal "The argument has to be one of GKE | Minikube"], .error (.exit 1)⟩ :=
  ⟨(config_dispatch (demoEnv "[]" "") "tok" (by decide)).1.1,
    (config_dispatch (demoEnv "[]" "") "tok" (by decide)).2.1.1,
    (config_dispatch (demoEnv "[]" "") "tok" (by decide)).2.2 "GKE" (by decide) (by decide)⟩

set_option maxRecDepth 100000 in
/-- A body cut off before the closing bracket gives no context and no error. -/
theorem getContexts_malformed_json_witness :
    (Unmarshal truncatedBody.toList []).2 ≠ none ∧
      (getContexts (demoEnv truncatedBody "") "/tmp/meshery/kubeconfig.yaml"
        "tok").result = .ok (.ok []) :=
  getContexts_malformed_json (demoEnv truncatedBody "")
    "/tmp/meshery/kubeconfig.yaml" "tok" demoListRequest
    { demoListRequest with header := demoListRequest.header ++ [("Cookie", "token=t")] }
    truncatedBody.toList (by decide) (by decide) (by decide) (by rfl)

set_option maxRecDepth 100000 in
/-- Three contexts and the input `x`: the scan fails and index `-1` panics. -/
theorem config_choice_bounds_witness :
    (configCmd.Run
        (demoEnv threeContextsBody "x\n")
        "tok" ["minikube"]).result = .error (.panic (.indexOutOfRange (-1) 3)) ∧
      setDefaultContextCalls (configCmd.Run
        (demoEnv threeContextsBody "x\n")
        "tok" ["minikube"]).trace = [] := by
  have h := (config_choice_bounds
    (demoEnv threeContextsBody "x\n")
    "tok" "minikube" ["ctx-a", "ctx-b", "ctx-c"] (by decide) (by decide) (by decide) (by decide)
    (by decide)).2.2
  have hs : Scanf_d (demoEnv
      threeContextsBody
      "x\n").stdin = none := by decide
  have hno : ¬ ∃ k, Scanf_d (demoEnv
      threeContextsBody
      "x\n").stdin = some k ∧ 1 ≤ k ∧
        k ≤ (["ctx-a", "ctx-b", "ctx-c"].length : Int) := by
    rintro ⟨k, hk, -⟩
    rw [hs] at hk
    cases hk
  have h2 := h hno
  rw [hs] at h2
  exact h2

/-! ## The round trip of a written form -/

theorem escapeQuotes_cons (c : Char) (s : List Char) :
    escapeQuotes (c :: s) = (if c = '\\' ∨ c = '"' then ['\\', c] else [c]) ++ escapeQuotes s := by
  simp [escapeQuotes]

theorem unquote_escapeQuotes (s rest : List Char) (hs : ∀ c ∈ s, c ≠ '\r' ∧ c ≠ '\n') :
    unquote false (escapeQuotes s ++ '"' :: rest) = some (s, rest) := by
  induction s with
  | nil => simp [escapeQuotes, unquote]
  | cons c s ih =>
    have hc := hs c (List.mem_cons_self _ _)
    have ih' := ih (fun x hx => hs x (List.mem_cons_of_mem _ hx))
    rw [escapeQuotes_cons]
    by_cases h1 : c = '\\'
    · subst h1
      simp [unquote, isTSpecial, ih']
    · by_cases h2 : c = '"'
      · subst h2
        simp [unquote, isTSpecial, ih']
      · simp [unquote, h1, h2, hc.1, hc.2, ih']

theorem boundary_no_cr (b : String) (hb : hexBoundary b) : '\r' ∉ b.toList := by
  intro h
  have := hb.2 _ h
  revert this
  decide

theorem no_dash_prefix (b : String) (hb : hexBoundary b) (content rest : List Char)
    (hno : ¬ dashBoundary b <:+: content) :
    ¬ dashBoundary b <+: content ++ (nlDashBoundary b ++ rest) := by
  intro h
  rcases List.prefix_or_prefix_of_prefix h (List.prefix_append content _) with h1 | h1
  · exact hno h1.isInfix
  · obtain ⟨t, ht⟩ := h1
    rw [← ht] at h
    have h2 := (List.prefix_append_right_inj content).mp h
    cases t with
    | nil =>
      simp only [List.append_nil] at ht
      exact hno (by rw [ht])
    | cons x t =>
      have hx : x = '\r' := by
        obtain ⟨u, hu⟩ := h2
        simp only [nlDashBoundary, List.cons_append, List.cons.injEq] at hu
        exact hu.1
      subst hx
      have hmem : '\r' ∈ dashBoundary b := by
        rw [← ht]; simp
      simp only [dashBoundary, List.mem_cons] at hmem
      rcases hmem with h | h | h
      · exact absurd h (by decide)
      · exact absurd h (by decide)
      · exact boundary_no_cr b hb h

theorem no_early_delim (b : String) (hb : hexBoundary b) (c : Char) (cs rest : List Char)
    (hno : ¬ dashBoundary b <:+: c :: cs) :
    ¬ nlDashBoundary b <+: (c :: cs) ++ (nlDashBoundary b ++ rest) := by
  intro h
  obtain ⟨u, hu⟩ := h
  simp only [nlDashBoundary, List.cons_append, List.cons.injEq] at hu
  obtain ⟨hc, hu⟩ := hu
  cases cs with
  | nil =>
    simp only [List.nil_append, List.cons.injEq] at hu
    exact absurd hu.1 (by decide)
  | cons c1 cs1 =>
    simp only [List.cons_append, List.cons.injEq] at hu
    obtain ⟨-, hu⟩ := hu
    have hpre : dashBoundary b <+: cs1 ++ (nlDashBoundary b ++ rest) := ⟨u, by
      simpa [nlDashBoundary] using hu⟩
    refine no_dash_prefix b hb cs1 rest ?_ hpre
    intro hin
    apply hno
    exact hin.trans ((List.suffix_cons c1 cs1).trans (List.suffix_cons c _)).isInfix

theorem findDelim_content (b : String) (hb : hexBoundary b) (content rest : List Char)
    (hno : ¬ dashBoundary b <:+: content) (hrest : validAfter rest = true) :
    findDelim (nlDashBoundary b) (content ++ (nlDashBoundary b ++ rest)) = some (content, rest) := by
  induction content with
  | nil =>
    have hp : (nlDashBoundary b).isPrefixOf (nlDashBoundary b ++ rest) = true :=
      List.isPrefixOf_iff_prefix.mpr (List.prefix_append _ _)
    have hd : (nlDashBoundary b ++ rest).drop (nlDashBoundary b).length = rest := by simp
    have hcons : ∃ x xs, nlDashBoundary b ++ rest = x :: xs := ⟨_, _, rfl⟩
    obtain ⟨x, xs, hx⟩ := hcons
    simp only [List.nil_append]
    rw [hx] at hp hd ⊢
    simp only [findDelim, hp, hd, hrest, Bool.and_self, if_true]
  | cons c cs ih =>
    have hne := no_early_delim b hb c cs rest hno
    have hp : (nlDashBoundary b).isPrefixOf (c :: cs ++ (nlDashBoundary b ++ rest)) = false := by
      rw [Bool.eq_false_iff]
      intro h
      exact hne (List.isPrefixOf_iff_prefix.mp h)
    have ih' := ih (fun hin => hno (hin.trans (List.suffix_cons c cs).isInfix))
    simp only [List.cons_append] at hp ⊢
    simp only [findDelim, hp, Bool.false_and, Bool.false_eq_true, if_false, ih', Option.map_some']

theorem partContent_content (b : String) (hb : hexBoundary b) (content rest : List Char)
    (hno : ¬ dashBoundary b <:+: content) (hrest : validAfter rest = true) :
    partContent b (content ++ (nlDashBoundary b ++ rest)) = some (content, rest) := by
  unfold partContent
  have hp : (dashBoundary b).isPrefixOf (content ++ (nlDashBoundary b ++ rest)) = false := by
    rw [Bool.eq_false_iff]
    intro h
    exact no_dash_prefix b hb content rest hno (List.isPrefixOf_iff_prefix.mp h)
  simp only [hp, Bool.false_and, Bool.false_eq_true, if_false]
  exact findDelim_content b hb content rest hno hrest

theorem formBody_eq_formTail (b : String) (sections : List (List Char)) :
    formBody b sections = dashBoundary b ++ formTail b sections := by
  induction sections with
  | nil => simp [formBody, formTail, dashBoundary]
  | cons s ss ih =>
    have h : formBody b (s :: ss) =
        "--".toList ++ b.toList ++ "\r\n".toList ++ s ++ "\r\n".toList ++ formBody b ss := by
      simp [formBody]
    rw [h, ih]
    simp [formTail, dashBoundary, nlDashBoundary]

theorem validAfter_formTail (b : String) (ss : List (List Char)) :
    validAfter (formTail b ss) = true := by
  cases ss <;> simp [formTail, validAfter]

theorem afterDelim_formTail_nil (b : String) : afterDelim (formTail b []) = .final := by
  simp [formTail, afterDelim, isLWS]

theorem afterDelim_formTail_cons (b : String) (s : List Char) (ss : List (List Char)) :
    afterDelim (formTail b (s :: ss)) = .next (s ++ (nlDashBoundary b ++ formTail b ss)) := by
  simp [formTail, afterDelim, isLWS]

theorem readParts_sections (b : String) (hb : hexBoundary b) (ss : List (List Char))
    (ps : List FormPart) (hall : List.Forall₂ (DecodesTo b) ss ps) :
    ∀ (s : List Char) (p : FormPart), DecodesTo b s p → ∀ fuel, ss.length < fuel →
      readParts fuel b (s ++ (nlDashBoundary b ++ formTail b ss)) = some (p :: ps) := by
  induction hall with
  | nil =>
    intro s p hsp fuel hfuel
    obtain ⟨⟨c, t, hs, hc1, hc2⟩, ⟨headers, hpart, hhead⟩, hno⟩ := hsp
    obtain ⟨fuel', rfl⟩ : ∃ f, fuel = f + 1 := ⟨fuel - 1, by simp at hfuel; omega⟩
    have hh := hhead (nlDashBoundary b ++ formTail b []) ((s ++ (nlDashBoundary b ++ formTail b [])).length + 1)
      (by simp [nlDashBoundary]; omega)
    have hhd : (s ++ (nlDashBoundary b ++ formTail b [])).head? = some c := by simp [hs]
    simp only [readParts, hhd, Option.some.injEq, hc1, hc2, or_self, if_false, hh,
      partContent_content b hb p.content _ hno (validAfter_formTail b []),
      afterDelim_formTail_nil, hpart]
  | @cons s2 p2 ss ps h2 _ ih =>
    intro s p hsp fuel hfuel
    obtain ⟨⟨c, t, hs, hc1, hc2⟩, ⟨headers, hpart, hhead⟩, hno⟩ := hsp
    obtain ⟨fuel', rfl⟩ : ∃ f, fuel = f + 1 := ⟨fuel - 1, by omega⟩
    have hh := hhead (nlDashBoundary b ++ formTail b (s2 :: ss))
      ((s ++ (nlDashBoundary b ++ formTail b (s2 :: ss))).length + 1)
      (by simp [nlDashBoundary]; omega)
    have hhd : (s ++ (nlDashBoundary b ++ formTail b (s2 :: ss))).head? = some c := by simp [hs]
    have hrec := ih s2 p2 h2 fuel' (by simp at hfuel; omega)
    simp only [readParts, hhd, Option.some.injEq, hc1, hc2, or_self, if_false, hh,
      partContent_content b hb p.content _ hno (validAfter_formTail b (s2 :: ss)),
      afterDelim_formTail_cons, hrec, Option.map_some', hpart]

theorem formTail_length (b : String) (ss : List (List Char)) :
    ss.length < (formTail b ss).length := by
  induction ss with
  | nil => simp [formTail]
  | cons s ss ih => simp [formTail]; omega

theorem readForm_formBody (b : String) (hb : hexBoundary b) (s : List Char) (p : FormPart)
    (ss : List (List Char)) (ps : List FormPart)
    (hs : DecodesTo b s p) (hall : List.Forall₂ (DecodesTo b) ss ps) :
    readForm b (formBody b (s :: ss)) = some (p :: ps) := by
  rw [formBody_eq_formTail]
  unfold readForm
  have hp : (dashBoundary b).isPrefixOf (dashBoundary b ++ formTail b (s :: ss)) = true :=
    List.isPrefixOf_iff_prefix.mpr (List.prefix_append _ _)
  have hd : (dashBoundary b ++ formTail b (s :: ss)).drop (dashBoundary b).length =
      formTail b (s :: ss) := by simp
  simp only [hp, if_true, hd, afterDelim_formTail_cons]
  apply readParts_sections b hb ss ps hall s p hs
  have := formTail_length b ss
  simp [formTail]
  omega

theorem readLine_crlf (xs rest : List Char) (hxs : ∀ c ∈ xs, c ≠ '\n') :
    readLine (xs ++ '\r' :: '\n' :: rest) = some (xs, rest) := by
  have h1 : ∀ a ∈ xs ++ ['\r'], (decide (a ≠ '\n')) = true := by
    intro a ha
    simp only [List.mem_append, List.mem_singleton] at ha
    rcases ha with h | h
    · simpa using hxs a h
    · subst h; decide
  have e : xs ++ '\r' :: '\n' :: rest = (xs ++ ['\r']) ++ '\n' :: rest := by simp
  unfold readLine
  rw [e, List.dropWhile_append_of_pos h1, List.takeWhile_append_of_pos h1]
  simp [List.getLast?_concat]

theorem token_ne (c : Char) (h : isTokenChar c = true) :
    c ≠ '\n' ∧ c ≠ ':' ∧ c ≠ ' ' ∧ c ≠ '\t' ∧ c ≠ '=' ∧ c ≠ ';' := by
  refine ⟨?_, ?_, ?_, ?_, ?_, ?_⟩ <;> (intro hc; subst hc; revert h; decide)

theorem headerValueChar_ne (c : Char) (h : isHeaderValueChar c = true) :
    c ≠ '\r' ∧ c ≠ '\n' := by
  constructor <;> (intro hc; subst hc; revert h; decide)

theorem parseHeaders_line (fuel : Nat) (kc : Char) (kt : List Char) (vc : Char)
    (vt rest : List Char) (q : Char)
    (hk : ∀ c ∈ kc :: kt, isTokenChar c = true)
    (hv : ∀ c ∈ vc :: vt, isHeaderValueChar c = true) (hvc : isLWS vc = false)
    (hlast : (vc :: vt).getLast? = some q) (hq : isLWS q = false)
    (hrest : rest.head? ≠ some ' ' ∧ rest.head? ≠ some '\t') :
    parseHeaders (fuel + 1) ((kc :: kt) ++ ':' :: ' ' :: (vc :: vt) ++ '\r' :: '\n' :: rest) =
      (parseHeaders fuel rest).map fun p =>
        ((canonicalKey (kc :: kt), String.mk (vc :: vt)) :: p.1, p.2) := by
  have hline : ∀ c ∈ (kc :: kt) ++ ':' :: ' ' :: (vc :: vt), c ≠ '\n' := by
    intro c hc
    simp only [List.mem_append, List.mem_cons] at hc
    rcases hc with (h | h) | h | h | h | h
    · exact (token_ne c (hk c (by simp [h]))).1
    · exact (token_ne c (hk c (by simp [h]))).1
    · subst h; decide
    · subst h; decide
    · exact (headerValueChar_ne c (hv c (by simp [h]))).2
    · exact (headerValueChar_ne c (hv c (by simp [h]))).2
  have e : (kc :: kt) ++ ':' :: ' ' :: (vc :: vt) ++ '\r' :: '\n' :: rest =
      ((kc :: kt) ++ ':' :: ' ' :: (vc :: vt)) ++ '\r' :: '\n' :: rest := by simp
  have hkc : isLWS kc = false := by
    have := token_ne kc (hk kc (by simp))
    simp [isLWS, this.2.2.1, this.2.2.2.1]
  have hd1 : ((kc :: kt) ++ ':' :: ' ' :: (vc :: vt)).dropWhile isLWS =
      (kc :: kt) ++ ':' :: ' ' :: (vc :: vt) := by
    simp [List.dropWhile_cons, hkc]
  have hd2 : ((kc :: kt) ++ ':' :: ' ' :: (vc :: vt)).rdropWhile isLWS =
      (kc :: kt) ++ ':' :: ' ' :: (vc :: vt) := by
    rw [List.rdropWhile_eq_self_iff]
    intro hne
    have hl : ((kc :: kt) ++ ':' :: ' ' :: (vc :: vt)).getLast? = some q := by
      rw [List.getLast?_append]
      simp [hlast]
    rw [List.getLast?_eq_getLast _ hne] at hl
    simp only [Option.some.injEq] at hl
    rw [hl, hq]
    simp
  have hk2 : ∀ a ∈ kc :: kt, (decide (a ≠ ':')) = true := by
    intro a ha
    simpa using (token_ne a (hk a ha)).2.1
  have hd3 : ((kc :: kt) ++ ':' :: ' ' :: (vc :: vt)).dropWhile (fun c => decide (c ≠ ':')) =
      ':' :: ' ' :: (vc :: vt) := by
    rw [List.dropWhile_append_of_pos hk2]
    simp [List.dropWhile_cons]
  have hd4 : ((kc :: kt) ++ ':' :: ' ' :: (vc :: vt)).takeWhile (fun c => decide (c ≠ ':')) =
      kc :: kt := by
    rw [List.takeWhile_append_of_pos hk2]
    simp [List.takeWhile_cons]
  have hall : (kc :: kt).all isTokenChar = true := by
    rw [List.all_eq_true]
    exact hk
  have hallv : (' ' :: vc :: vt).all isHeaderValueChar = true := by
    rw [List.all_eq_true]
    intro c hc
    simp only [List.mem_cons] at hc
    rcases hc with h | h | h
    · subst h; decide
    · exact hv c (by simp [h])
    · exact hv c (by simp [h])
  have hvd : (' ' :: vc :: vt).dropWhile isLWS = vc :: vt := by
    have hsp : isLWS ' ' = true := by decide
    simp [List.dropWhile_cons, hsp, hvc]
  rw [e]
  simp only [parseHeaders, readLine_crlf _ rest hline, hd1, hd2, hd3, hd4, hall, hallv, and_self,
    if_true, hvd]
  have hne : ¬ ((kc :: kt) ++ ':' :: ' ' :: (vc :: vt) = []) := by simp
  simp only [hne, if_false, hrest.1, hrest.2, or_self, reduceCtorEq]

theorem parseHeaders_blank (fuel : Nat) (rest : List Char) :
    parseHeaders (fuel + 1) ('\r' :: '\n' :: rest) = some ([], rest) := by
  have := readLine_crlf [] rest (by simp)
  simp only [List.nil_append] at this
  simp [parseHeaders, this, List.rdropWhile]

theorem token_not_mediaSpace (c : Char) (h : isTokenChar c = true) : isMediaSpace c = false := by
  simp only [isTokenChar, decide_eq_true_eq] at h
  obtain ⟨h1, h2, -⟩ := h
  simp only [isMediaSpace, decide_eq_false_iff_not, not_or]
  refine ⟨?_, ?_, ?_, ?_, ?_, ?_, ?_, ?_⟩
  · intro hc; subst hc; revert h1; decide
  · intro hc; subst hc; revert h1; decide
  · intro hc; subst hc; revert h1; decide
  · intro hc; subst hc; revert h1; decide
  · omega
  · omega
  · omega
  · omega

theorem consumeMediaParam_quoted (key val rest : List Char) (hne : key ≠ [])
    (hkey : ∀ c ∈ key, isTokenChar c = true) (hval : ∀ c ∈ val, c ≠ '\r' ∧ c ≠ '\n') :
    consumeMediaParam (';' :: ' ' :: (key ++ '=' :: '"' :: (escapeQuotes val ++ '"' :: rest))) =
      some (String.mk (key.map Char.toLower), String.mk val, rest) := by
  obtain ⟨kc, kt, rfl⟩ := List.exists_cons_of_ne_nil hne
  have hkc := hkey kc (by simp)
  have hks := token_not_mediaSpace kc hkc
  have hsemi : isMediaSpace ';' = false := by decide
  have hsp : isMediaSpace ' ' = true := by decide
  have hmeq : isMediaSpace '=' = false := by decide
  have hmq : isMediaSpace '"' = false := by decide
  have heq : isTokenChar '=' = false := by decide
  have hk' : ∀ a ∈ kc :: kt, isTokenChar a = true := hkey
  have h2 : ((kc :: kt) ++ ('=' :: '"' :: (escapeQuotes val ++ '"' :: rest))).takeWhile isTokenChar =
      kc :: kt := by
    rw [List.takeWhile_append_of_pos hk']
    simp [List.takeWhile_cons, heq]
  have h3 : ((kc :: kt) ++ ('=' :: '"' :: (escapeQuotes val ++ '"' :: rest))).dropWhile isTokenChar =
      '=' :: '"' :: (escapeQuotes val ++ '"' :: rest) := by
    rw [List.dropWhile_append_of_pos hk']
    simp [List.dropWhile_cons, heq]
  have h1 : (' ' :: ((kc :: kt) ++ ('=' :: '"' :: (escapeQuotes val ++ '"' :: rest)))).dropWhile
      isMediaSpace = (kc :: kt) ++ ('=' :: '"' :: (escapeQuotes val ++ '"' :: rest)) := by
    simp [List.dropWhile_cons, hsp, hks]
  have h0 : (';' :: ' ' :: ((kc :: kt) ++ ('=' :: '"' :: (escapeQuotes val ++ '"' :: rest)))).dropWhile
      isMediaSpace = ';' :: ' ' :: ((kc :: kt) ++ ('=' :: '"' :: (escapeQuotes val ++ '"' :: rest))) := by
    simp [List.dropWhile_cons, hsemi]
  have h4 : ('=' :: '"' :: (escapeQuotes val ++ '"' :: rest)).dropWhile isMediaSpace =
      '=' :: '"' :: (escapeQuotes val ++ '"' :: rest) := by
    simp [List.dropWhile_cons, hmeq]
  have h5 : ('"' :: (escapeQuotes val ++ '"' :: rest)).dropWhile isMediaSpace =
      '"' :: (escapeQuotes val ++ '"' :: rest) := by
    simp [List.dropWhile_cons, hmq]
  unfold consumeMediaParam
  rw [h0]
  simp only [if_true]
  rw [h1, h2, h3, h4]
  simp only [reduceCtorEq, if_false, if_true, h5, consumeValue,
    unquote_escapeQuotes val rest hval, Option.map_some']

theorem parseParams_quoted (fuel : Nat) (params : List (String × String)) (key val rest : List Char)
    (hne : key ≠ []) (hkey : ∀ c ∈ key, isTokenChar c = true)
    (hval : ∀ c ∈ val, c ≠ '\r' ∧ c ≠ '\n')
    (hnew : params.find? (fun p => p.1 = String.mk (key.map Char.toLower)) = none) :
    parseParams (fuel + 1) params
        (';' :: ' ' :: (key ++ '=' :: '"' :: (escapeQuotes val ++ '"' :: rest))) =
      parseParams fuel (params ++ [(String.mk (key.map Char.toLower), String.mk val)]) rest := by
  have hsemi : isMediaSpace ';' = false := by decide
  have h1 := consumeMediaParam_quoted key val rest hne hkey hval
  have h0 : (';' :: ' ' :: (key ++ '=' :: '"' :: (escapeQuotes val ++ '"' :: rest))).dropWhile
      isMediaSpace = ';' :: ' ' :: (key ++ '=' :: '"' :: (escapeQuotes val ++ '"' :: rest)) := by
    simp [List.dropWhile_cons, hsemi]
  simp only [parseParams, h0, h1, hnew]

theorem parseParams_nil (fuel : Nat) (params : List (String × String)) :
    parseParams (fuel + 1) params [] = some params := by
  simp [parseParams]

theorem parseHeaders_line' (fuel : Nat) (k v rest : List Char) (vc q : Char)
    (hkne : k ≠ []) (hk : ∀ c ∈ k, isTokenChar c = true)
    (hv : ∀ c ∈ v, isHeaderValueChar c = true) (hvh : v.head? = some vc) (hvc : isLWS vc = false)
    (hlast : v.getLast? = some q) (hq : isLWS q = false)
    (hrest : rest.head? ≠ some ' ' ∧ rest.head? ≠ some '\t') :
    parseHeaders (fuel + 1) (k ++ (':' :: ' ' :: (v ++ '\r' :: '\n' :: rest))) =
      (parseHeaders fuel rest).map fun p => ((canonicalKey k, String.mk v) :: p.1, p.2) := by
  obtain ⟨kc, kt, rfl⟩ := List.exists_cons_of_ne_nil hkne
  cases v with
  | nil => simp at hvh
  | cons vc' vt =>
    simp only [List.head?_cons, Option.some.injEq] at hvh
    subst hvh
    have := parseHeaders_line fuel kc kt vc' vt rest q hk hv hvc hlast hq hrest
    simpa using this

theorem parseMediaType_dispositionFile (fieldname filename : List Char)
    (h1 : ∀ c ∈ fieldname, c ≠ '\r' ∧ c ≠ '\n') (h2 : ∀ c ∈ filename, c ≠ '\r' ∧ c ≠ '\n') :
    parseMediaType (dispositionFile fieldname filename) =
      some ("form-data", [("name", String.mk fieldname), ("filename", String.mk filename)]) := by
  have hbase : ∀ a ∈ "form-data".toList, (decide (a ≠ ';')) = true := by decide
  have hm : ((("form-data".toList.dropWhile isMediaSpace).reverse.dropWhile isMediaSpace).reverse.map
      Char.toLower) = "form-data".toList := by decide
  have hname : ∀ c ∈ "name".toList, isTokenChar c = true := by decide
  have hfile : ∀ c ∈ "filename".toList, isTokenChar c = true := by decide
  have hn1 : String.mk ("name".toList.map Char.toLower) = "name" := by decide
  have hn2 : String.mk ("filename".toList.map Char.toLower) = "filename" := by decide
  obtain ⟨m, hmlen⟩ : ∃ m, (dispositionFile fieldname filename).length + 1 = m + 1 + 1 + 1 :=
    ⟨(dispositionFile fieldname filename).length - 2, by simp [dispositionFile]⟩
  unfold parseMediaType
  rw [hmlen]
  unfold dispositionFile
  rw [List.takeWhile_append_of_pos hbase, List.dropWhile_append_of_pos hbase]
  simp only [List.takeWhile_cons, List.dropWhile_cons, ne_eq, not_true_eq_false, decide_False,
    Bool.false_eq_true, if_false, List.append_nil, hm]
  rw [parseParams_quoted (m + 1 + 1) [] "name".toList fieldname _ (by decide) hname h1 (by simp)]
  rw [hn1]
  rw [parseParams_quoted (m + 1) _ "filename".toList filename [] (by decide) hfile h2
    (by rw [hn2]; simp)]
  rw [hn2, parseParams_nil]
  simp

theorem parseMediaType_dispositionField (fieldname : List Char)
    (h1 : ∀ c ∈ fieldname, c ≠ '\r' ∧ c ≠ '\n') :
    parseMediaType (dispositionField fieldname) =
      some ("form-data", [("name", String.mk fieldname)]) := by
  have hbase : ∀ a ∈ "form-data".toList, (decide (a ≠ ';')) = true := by decide
  have hm : ((("form-data".toList.dropWhile isMediaSpace).reverse.dropWhile isMediaSpace).reverse.map
      Char.toLower) = "form-data".toList := by decide
  have hname : ∀ c ∈ "name".toList, isTokenChar c = true := by decide
  have hn1 : String.mk ("name".toList.map Char.toLower) = "name" := by decide
  obtain ⟨m, hmlen⟩ : ∃ m, (dispositionField fieldname).length + 1 = m + 1 + 1 :=
    ⟨(dispositionField fieldname).length - 1, by simp [dispositionField]⟩
  unfold parseMediaType
  rw [hmlen]
  unfold dispositionField
  rw [List.takeWhile_append_of_pos hbase, List.dropWhile_append_of_pos hbase]
  simp only [List.takeWhile_cons, List.dropWhile_cons, ne_eq, not_true_eq_false, decide_False,
    Bool.false_eq_true, if_false, List.append_nil, hm]
  rw [parseParams_quoted (m + 1) [] "name".toList fieldname [] (by decide) hname h1 (by simp)]
  rw [hn1, parseParams_nil]
  simp

theorem dispositionFile_eq (fieldname filename : List Char) :
    dispositionFile fieldname filename =
      "form-data; name=\"".toList ++ escapeQuotes fieldname ++ "\"; filename=\"".toList ++
        escapeQuotes filename ++ ['"'] := by
  simp [dispositionFile]

theorem dispositionField_eq (fieldname : List Char) :
    dispositionField fieldname =
      "form-data; name=\"".toList ++ escapeQuotes fieldname ++ ['"'] := by
  simp [dispositionField]

theorem dispositionFile_getLast (fieldname filename : List Char) :
    (dispositionFile fieldname filename).getLast? = some '"' := by
  rw [dispositionFile_eq, List.getLast?_concat]

theorem dispositionField_getLast (fieldname : List Char) :
    (dispositionField fieldname).getLast? = some '"' := by
  rw [dispositionField_eq, List.getLast?_concat]

theorem escapeQuotes_valid (s : List Char) (hs : ∀ c ∈ s, isHeaderValueChar c = true) :
    ∀ c ∈ escapeQuotes s, isHeaderValueChar c = true := by
  intro c hc
  simp only [escapeQuotes, List.mem_flatMap] at hc
  obtain ⟨x, hx, hcx⟩ := hc
  have := hs x hx
  split at hcx
  · simp only [List.mem_cons, List.mem_singleton, List.not_mem_nil, or_false] at hcx
    rcases hcx with h | h
    · subst h; decide
    · subst h; exact this
  · simp only [List.mem_singleton] at hcx
    subst hcx; exact this

theorem dispositionFile_valid (fieldname filename : List Char)
    (h1 : ∀ c ∈ fieldname, isHeaderValueChar c = true)
    (h2 : ∀ c ∈ filename, isHeaderValueChar c = true) :
    ∀ c ∈ dispositionFile fieldname filename, isHeaderValueChar c = true := by
  have e1 := escapeQuotes_valid fieldname h1
  have e2 := escapeQuotes_valid filename h2
  have l1 : ∀ c ∈ "form-data; name=\"".toList, isHeaderValueChar c = true := by decide
  have l2 : ∀ c ∈ "\"; filename=\"".toList, isHeaderValueChar c = true := by decide
  have e : dispositionFile fieldname filename =
      "form-data; name=\"".toList ++ escapeQuotes fieldname ++ "\"; filename=\"".toList ++
        escapeQuotes filename ++ ['"'] := by
    simp [dispositionFile]
  intro c hc
  rw [e] at hc
  simp only [List.mem_append, List.mem_singleton] at hc
  rcases hc with (((h | h) | h) | h) | h
  · exact l1 c h
  · exact e1 c h
  · exact l2 c h
  · exact e2 c h
  · subst h; decide

theorem dispositionField_valid (fieldname : List Char)
    (h1 : ∀ c ∈ fieldname, isHeaderValueChar c = true) :
    ∀ c ∈ dispositionField fieldname, isHeaderValueChar c = true := by
  have e1 := escapeQuotes_valid fieldname h1
  have l1 : ∀ c ∈ "form-data; name=\"".toList, isHeaderValueChar c = true := by decide
  have e : dispositionField fieldname =
      "form-data; name=\"".toList ++ escapeQuotes fieldname ++ ['"'] := by
    simp [dispositionField]
  intro c hc
  rw [e] at hc
  simp only [List.mem_append, List.mem_singleton] at hc
  rcases hc with (h | h) | h
  · exact l1 c h
  · exact e1 c h
  · subst h; decide

theorem fileSection_lines (fieldname filename : String) (contents rest : List Char) :
    fileSection fieldname filename contents ++ rest =
      "Content-Disposition".toList ++ (':' :: ' ' ::
        (dispositionFile fieldname.toList filename.toList ++ '\r' :: '\n' ::
          ("Content-Type".toList ++ (':' :: ' ' :: ("application/octet-stream".toList ++
            '\r' :: '\n' :: ('\r' :: '\n' :: (contents ++ rest))))))) := by
  simp [fileSection, dispositionFile]

theorem fieldSection_lines (fieldname value : String) (rest : List Char) :
    fieldSection fieldname value ++ rest =
      "Content-Disposition".toList ++ (':' :: ' ' ::
        (dispositionField fieldname.toList ++ '\r' :: '\n' ::
          ('\r' :: '\n' :: (value.toList ++ rest)))) := by
  simp [fieldSection, dispositionField]

theorem fileSection_decodes (b fieldname filename : String) (contents : List Char)
    (h1 : headerSafe fieldname) (h2 : headerSafe filename)
    (hno : ¬ dashBoundary b <:+: contents) :
    DecodesTo b (fileSection fieldname filename contents)
      { name := fieldname, filename := filename, content := contents } := by
  refine ⟨⟨'C', _, by simp [fileSection]; rfl, by decide, by decide⟩, ?_, hno⟩
  refine ⟨[("content-disposition", String.mk (dispositionFile fieldname.toList filename.toList)),
    ("content-type", "application/octet-stream")], ?_, ?_⟩
  · have hp := parseMediaType_dispositionFile fieldname.toList filename.toList
      (fun c hc => headerValueChar_ne c (h1 c hc)) (fun c hc => headerValueChar_ne c (h2 c hc))
    simp only [String.toList] at hp
    simp [toFormPart, paramValue, hp]
  · intro rest n hn
    obtain ⟨m, rfl⟩ : ∃ m, n = m + 1 + 1 + 1 := ⟨n - 3, by omega⟩
    rw [fileSection_lines]
    rw [parseHeaders_line' (m + 1 + 1) "Content-Disposition".toList
      (dispositionFile fieldname.toList filename.toList) _ 'f' '"' (by decide) (by decide)
      (dispositionFile_valid _ _ h1 h2) (by simp [dispositionFile]) (by decide)
      (dispositionFile_getLast _ _) (by decide) (by simp)]
    rw [parseHeaders_line' (m + 1) "Content-Type".toList "application/octet-stream".toList _ 'a' 'm'
      (by decide) (by decide) (by decide) (by decide) (by decide) (by decide) (by decide)
      (by simp)]
    rw [parseHeaders_blank]
    simp [canonicalKey]

theorem fieldSection_decodes (b fieldname value : String)
    (h1 : headerSafe fieldname) (hno : ¬ dashBoundary b <:+: value.toList) :
    DecodesTo b (fieldSection fieldname value)
      { name := fieldname, filename := "", content := value.toList } := by
  refine ⟨⟨'C', _, by simp [fieldSection]; rfl, by decide, by decide⟩, ?_, hno⟩
  refine ⟨[("content-disposition", String.mk (dispositionField fieldname.toList))], ?_, ?_⟩
  · have hp := parseMediaType_dispositionField fieldname.toList
      (fun c hc => headerValueChar_ne c (h1 c hc))
    simp only [String.toList] at hp
    simp [toFormPart, paramValue, hp]
  · intro rest n hn
    obtain ⟨m, rfl⟩ : ∃ m, n = m + 1 + 1 := ⟨n - 2, by omega⟩
    rw [fieldSection_lines]
    rw [parseHeaders_line' (m + 1) "Content-Disposition".toList
      (dispositionField fieldname.toList) _ 'f' '"' (by decide) (by decide)
      (dispositionField_valid _ h1) (by simp [dispositionField]) (by decide)
      (dispositionField_getLast _) (by decide) (by simp)]
    rw [parseHeaders_blank]
    simp [canonicalKey]

theorem boundaryChar_props (c : Char) (h : isBoundaryChar c = true) :
    isTokenChar c = true ∧ c ≠ '"' ∧
      (decide (c ∈ "()<>@,;:\\\"/[]?= ".toList)) = false := by
  have key : ∀ x ∈ "0123456789abcdef".toList, isTokenChar x = true ∧ x ≠ '"' ∧
      (decide (x ∈ "()<>@,;:\\\"/[]?= ".toList)) = false := by decide
  apply key
  simpa [isBoundaryChar] using h

theorem consumeMediaParam_token (key val : List Char) (hne : key ≠ [])
    (hkey : ∀ c ∈ key, isTokenChar c = true) (hvne : val ≠ [])
    (hval : ∀ c ∈ val, isTokenChar c = true ∧ c ≠ '"') :
    consumeMediaParam (';' :: ' ' :: (key ++ '=' :: val)) =
      some (String.mk (key.map Char.toLower), String.mk val, []) := by
  obtain ⟨kc, kt, rfl⟩ := List.exists_cons_of_ne_nil hne
  obtain ⟨vc, vt, rfl⟩ := List.exists_cons_of_ne_nil hvne
  have hkc := hkey kc (by simp)
  have hks := token_not_mediaSpace kc hkc
  have hvc := hval vc (by simp)
  have hvs := token_not_mediaSpace vc hvc.1
  have hsemi : isMediaSpace ';' = false := by decide
  have hsp : isMediaSpace ' ' = true := by decide
  have hmeq : isMediaSpace '=' = false := by decide
  have heq : isTokenChar '=' = false := by decide
  have hk' : ∀ a ∈ kc :: kt, isTokenChar a = true := hkey
  have hv' : ∀ a ∈ vc :: vt, isTokenChar a = true := fun a ha => (hval a ha).1
  have h0 : (';' :: ' ' :: ((kc :: kt) ++ '=' :: (vc :: vt))).dropWhile isMediaSpace =
      ';' :: ' ' :: ((kc :: kt) ++ '=' :: (vc :: vt)) := by
    simp [List.dropWhile_cons, hsemi]
  have h1 : (' ' :: ((kc :: kt) ++ '=' :: (vc :: vt))).dropWhile isMediaSpace =
      (kc :: kt) ++ '=' :: (vc :: vt) := by
    simp [List.dropWhile_cons, hsp, hks]
  have h2 : ((kc :: kt) ++ '=' :: (vc :: vt)).takeWhile isTokenChar = kc :: kt := by
    rw [List.takeWhile_append_of_pos hk']
    simp [List.takeWhile_cons, heq]
  have h3 : ((kc :: kt) ++ '=' :: (vc :: vt)).dropWhile isTokenChar = '=' :: (vc :: vt) := by
    rw [List.dropWhile_append_of_pos hk']
    simp [List.dropWhile_cons, heq]
  have h4 : ('=' :: (vc :: vt)).dropWhile isMediaSpace = '=' :: (vc :: vt) := by
    simp [List.dropWhile_cons, hmeq]
  have h5 : (vc :: vt).dropWhile isMediaSpace = vc :: vt := by
    simp [List.dropWhile_cons, hvs]
  have h6 : (vc :: vt).takeWhile isTokenChar = vc :: vt := by
    rw [List.takeWhile_eq_self_iff]
    exact hv'
  have h7 : (vc :: vt).dropWhile isTokenChar = [] := by
    rw [List.dropWhile_eq_nil_iff]
    exact hv'
  unfold consumeMediaParam
  rw [h0]
  simp only [if_true]
  rw [h1, h2, h3, h4]
  simp only [reduceCtorEq, if_false, if_true, h5, consumeValue, hvc.2, h6, h7, Option.map_some']

theorem parseMediaType_contentType (b : String) (hb : hexBoundary b) :
    parseMediaType (NewWriter b).FormDataContentType.toList =
      some ("multipart/form-data", [("boundary", b)]) := by
  have hany : (b.toList.any fun c => decide (c ∈ "()<>@,;:\\\"/[]?= ".toList)) = false := by
    rw [List.any_eq_false]
    intro c hc
    have := (boundaryChar_props c (hb.2 c hc)).2.2
    simpa using this
  have hct : (NewWriter b).FormDataContentType = "multipart/form-data; boundary=" ++ b := by
    simp only [Writer.FormDataContentType, NewWriter, hany, Bool.false_eq_true, if_false]
  have hl : ("multipart/form-data; boundary=" ++ b).toList =
      "multipart/form-data".toList ++ (';' :: ' ' :: ("boundary".toList ++ '=' :: b.toList)) := by
    simp [String.toList]
  have hbne : b.toList ≠ [] := by
    intro h
    have := hb.1
    rw [String.length, ← String.toList, h] at this
    simp at this
  have hbase : ∀ a ∈ "multipart/form-data".toList, (decide (a ≠ ';')) = true := by decide
  have hm : ((("multipart/form-data".toList.dropWhile isMediaSpace).reverse.dropWhile
      isMediaSpace).reverse.map Char.toLower) = "multipart/form-data".toList := by decide
  have hkey : ∀ c ∈ "boundary".toList, isTokenChar c = true := by decide
  have hn1 : String.mk ("boundary".toList.map Char.toLower) = "boundary" := by decide
  have hsemi : isMediaSpace ';' = false := by decide
  have hcm := consumeMediaParam_token "boundary".toList b.toList (by decide) hkey hbne
    (fun c hc => ⟨(boundaryChar_props c (hb.2 c hc)).1, (boundaryChar_props c (hb.2 c hc)).2.1⟩)
  have h0 : (';' :: ' ' :: ("boundary".toList ++ '=' :: b.toList)).dropWhile isMediaSpace =
      ';' :: ' ' :: ("boundary".toList ++ '=' :: b.toList) := by
    simp [List.dropWhile_cons, hsemi]
  rw [hct, hl]
  unfold parseMediaType
  rw [List.takeWhile_append_of_pos hbase, List.dropWhile_append_of_pos hbase]
  simp only [List.takeWhile_cons, List.dropWhile_cons, ne_eq, not_true_eq_false, decide_False,
    Bool.false_eq_true, if_false, List.append_nil, hm]
  obtain ⟨m, hmlen⟩ : ∃ m, ("multipart/form-data".toList ++
      (';' :: ' ' :: ("boundary".toList ++ '=' :: b.toList))).length + 1 = m + 1 + 1 :=
    ⟨_, rfl⟩
  rw [hmlen]
  simp only [parseParams, h0, hcm, hn1, List.find?_nil, List.nil_append, List.dropWhile_nil]
  simp

theorem decodeForm_contentType (b : String) (hb : hexBoundary b) (body : List Char) :
    decodeForm (NewWriter b).FormDataContentType body = readForm b body := by
  have hne : b ≠ "" := by
    intro h
    have := hb.1
    rw [h] at this
    simp at this
  unfold decodeForm
  rw [parseMediaType_contentType b hb]
  simp [paramValue, hne]

/-! ## Decoding an uploaded form -/

theorem fieldSections_decode (b : String) (params : GoMap)
    (hkeys : ∀ kv ∈ params, headerSafe kv.1)
    (hvalues : ∀ kv ∈ params, ¬ dashBoundary b <:+: kv.2.toList) :
    List.Forall₂ (DecodesTo b) (params.map fun kv => fieldSection kv.1 kv.2)
      (params.map fun kv => { name := kv.1, filename := "", content := kv.2.toList }) := by
  induction params with
  | nil => exact List.Forall₂.nil
  | cons kv rest ih =>
    simp only [List.map_cons]
    refine List.Forall₂.cons ?_ (ih ?_ ?_)
    · exact fieldSection_decodes b kv.1 kv.2 (hkeys kv (by simp)) (hvalues kv (by simp))
    · exact fun x hx => hkeys x (List.mem_cons_of_mem _ hx)
    · exact fun x hx => hvalues x (List.mem_cons_of_mem _ hx)

/-- Claim C8, amended: when the boundary has the shape the writer draws (sixty
hexadecimal digits), the file field name, the file's base name and the keys
of the extra fields contain no control character other than a tab (so no
carriage return and no line feed), and neither the
file's contents nor any extra field value contains `--` followed by the
boundary, then decoding the body of the returned request with the boundary of
its `Content-Type` header yields exactly the file part (given field name, the
file's base name as file name, the file's exact contents) followed by one
plain field per entry, in the order written, with the entry's key and exact
value. -/
theorem upload_roundtrip (env : Env) (n : Nat) (uri : String) (params : GoMap)
    (fieldname path : String) (req : Request)
    (hreq : (UploadFileWithParams env n uri params fieldname path).result = .ok (.ok req))
    (hb : hexBoundary (env.boundary n))
    (hname : headerSafe fieldname) (hbase : headerSafe (basename path))
    (hkeys : ∀ kv ∈ params, headerSafe kv.1)
    (hcontents : ∀ contents, env.readFile path = .ok contents →
      ¬ dashBoundary (env.boundary n) <:+: contents)
    (hvalues : ∀ kv ∈ params, ¬ dashBoundary (env.boundary n) <:+: kv.2.toList) :
    ∃ contents, env.readFile path = .ok contents ∧
      decodeRequest req =
        some ({ name := fieldname, filename := basename path, content := contents } ::
          params.map fun kv => { name := kv.1, filename := "", content := kv.2.toList }) := by
  obtain ⟨contents, hc, rfl⟩ := UploadFileWithParams_result env n uri params fieldname path req hreq
  refine ⟨contents, hc, ?_⟩
  have hct : paramValue [("Content-Type", (NewWriter (env.boundary n)).FormDataContentType)]
      "Content-Type" = (NewWriter (env.boundary n)).FormDataContentType := by
    simp [paramValue]
  simp only [decodeRequest, hct]
  rw [decodeForm_contentType _ hb]
  exact readForm_formBody _ hb _ _ _ _
    (fileSection_decodes _ fieldname (basename path) contents hname hbase (hcontents contents hc))
    (fieldSections_decode _ params hkeys hvalues)

set_option maxRecDepth 100000 in
/-- The two requests of the example environment decode to what was put in. -/
theorem upload_roundtrip_witness :
    decodeRequest demoSetRequest =
      some [{ name := "k8sfile", filename := "kubeconfig.yaml", content := "apiVersion: v1".toList },
        { name := "contextName", filename := "", content := "ctx-b".toList }] := by
  obtain ⟨contents, hc, h⟩ := upload_roundtrip (demoEnv "" "") 1
    "http://localhost:9081/api/k8sconfig" [("contextName", "ctx-b")] "k8sfile"
    "/tmp/meshery/kubeconfig.yaml" demoSetRequest (by decide) (by decide) (by decide) (by decide)
    (by decide)
    (by
      intro contents hc
      have : contents = "apiVersion: v1".toList := by
        have h : (demoEnv "" "").readFile "/tmp/meshery/kubeconfig.yaml" =
            .ok "apiVersion: v1".toList := by decide
        rw [h] at hc
        exact (Except.ok.inj hc).symm
      subst this
      decide)
    (by decide)
  have : contents = "apiVersion: v1".toList := by
    have h : (demoEnv "" "").readFile "/tmp/meshery/kubeconfig.yaml" =
        .ok "apiVersion: v1".toList := by decide
    rw [h] at hc
    exact (Except.ok.inj hc).symm
  subst this
  rw [h]
  decide

set_option maxRecDepth 100000 in
/-- Claim C8 fails as stated. A kubeconfig that contains a line break followed
by `--`, the boundary and `--` is read back cut off at that point: the decoded
file part holds `a`, not the file's contents. And a file field name with a
line feed in it makes the body undecodable. -/
theorem upload_roundtrip_counterexample :
    (collidingEnv.readFile "/tmp/meshery/kubeconfig.yaml" =
        .ok ("a\r\n--0123456789abcdef0123456789abcdef0123456789abcdef0123456789ab--\r\nb").toList ∧
      uploadedForm collidingEnv 0 "http://localhost:9081/api/k8sconfig/contexts" [] "k8sfile"
          "/tmp/meshery/kubeconfig.yaml" =
        some [{ name := "k8sfile", filename := "kubeconfig.yaml", content := "a".toList }]) ∧
    uploadedForm (demoEnv "" "") 0 "http://localhost:9081/api/k8sconfig/contexts" [] "k8s\nfile"
        "/tmp/meshery/kubeconfig.yaml" = none := by
  decide

/-! ## What the two requests carry -/

theorem headerSafe_k8sfile : headerSafe "k8sfile" := by decide

theorem headerSafe_contextName : headerSafe "contextName" := by decide

theorem decodeRequest_upload (b uri : String) (hb : hexBoundary b) (s : List Char) (p : FormPart)
    (ss : List (List Char)) (ps : List FormPart)
    (hs : DecodesTo b s p) (hall : List.Forall₂ (DecodesTo b) ss ps) :
    decodeRequest ⟨"POST", uri, [("Content-Type", (NewWriter b).FormDataContentType)],
        formBody b (s :: ss)⟩ = some (p :: ps) := by
  have hct : paramValue [("Content-Type", (NewWriter b).FormDataContentType)]
      "Content-Type" = (NewWriter b).FormDataContentType := by
    simp [paramValue]
  simp only [decodeRequest, hct]
  rw [decodeForm_contentType _ hb]
  exact readForm_formBody _ hb _ _ _ _ hs hall

/-- Claim C9, amended: every request `SetDefaultContext` builds is a `POST` to
`http://localhost:9081/api/k8sconfig` whose only header is the `Content-Type`
of the form with the boundary drawn, and every request `getContexts` builds is
a `POST` to `http://localhost:9081/api/k8sconfig/contexts` with such a header.
When the boundary has the shape the writer draws (sixty hexadecimal digits),
the base name of the kubeconfig path contains no control character other than
a tab, and neither the kubeconfig's contents nor the chosen context name
contains `--` followed by the boundary, then the form of the first request,
decoded with the boundary its header declares, is exactly the file part
`k8sfile` (file name: the base name of the path, content: the file's
contents) followed by the one field `contextName` whose value is the chosen
context name unchanged; and, under the same conditions on the boundary, the
base name and the contents, the form of the second request is exactly that
file part. -/
theorem requests_target_and_fields (env : Env) (configFile cname tokenPath : String) :
    (∀ req ∈ requestsBuilt (SetDefaultContext env configFile cname tokenPath).trace,
      req.method = "POST" ∧ req.url = "http://localhost:9081/api/k8sconfig" ∧
        req.header = [("Content-Type", (NewWriter (env.boundary 1)).FormDataContentType)] ∧
        ∃ contents, env.readFile configFile = .ok contents ∧
          (hexBoundary (env.boundary 1) → headerSafe (basename configFile) →
            ¬ dashBoundary (env.boundary 1) <:+: contents →
            ¬ dashBoundary (env.boundary 1) <:+: cname.toList →
            decodeRequest req =
              some [{ name := "k8sfile", filename := basename configFile, content := contents },
                { name := "contextName", filename := "", content := cname.toList }])) ∧
    (∀ req ∈ requestsBuilt (getContexts env configFile tokenPath).trace,
      req.method = "POST" ∧ req.url = "http://localhost:9081/api/k8sconfig/contexts" ∧
        req.header = [("Content-Type", (NewWriter (env.boundary 0)).FormDataContentType)] ∧
        ∃ contents, env.readFile configFile = .ok contents ∧
          (hexBoundary (env.boundary 0) → headerSafe (basename configFile) →
            ¬ dashBoundary (env.boundary 0) <:+: contents →
            decodeRequest req =
              some [{ name := "k8sfile", filename := basename configFile,
                      content := contents }])) := by
  constructor
  · intro req hreq
    rw [requestsBuilt_SetDefaultContext] at hreq
    split at hreq
    · rename_i r hr
      simp only [List.mem_singleton] at hreq
      subst hreq
      obtain ⟨contents, hc, rfl⟩ := UploadFileWithParams_result _ _ _ _ _ _ _ hr
      refine ⟨rfl, rfl, rfl, contents, hc, ?_⟩
      intro hb hbase hcontents hname
      exact decodeRequest_upload _ _ hb _ _ _ _
        (fileSection_decodes _ "k8sfile" (basename configFile) contents headerSafe_k8sfile hbase
          hcontents)
        (List.Forall₂.cons
          (fieldSection_decodes _ "contextName" cname headerSafe_contextName hname)
          List.Forall₂.nil)
    · simp at hreq
  · intro req hreq
    rw [requestsBuilt_getContexts] at hreq
    split at hreq
    · rename_i r hr
      simp only [List.mem_singleton] at hreq
      subst hreq
      obtain ⟨contents, hc, rfl⟩ := UploadFileWithParams_result _ _ _ _ _ _ _ hr
      refine ⟨rfl, rfl, rfl, contents, hc, ?_⟩
      intro hb hbase hcontents
      exact decodeRequest_upload _ _ hb _ _ _ _
        (fileSection_decodes _ "k8sfile" (basename configFile) contents headerSafe_k8sfile hbase
          hcontents)
        List.Forall₂.nil
    · simp at hreq

set_option maxRecDepth 100000 in
/-- In the example environment both requests are built, and each one decodes
to the kubeconfig under `k8sfile`, the first one with the field `contextName`
of value `ctx-b` after it. -/
theorem requests_target_and_fields_witness :
    (demoSetRequest ∈ requestsBuilt
        (SetDefaultContext (demoEnv "[]" "") "/tmp/meshery/kubeconfig.yaml" "ctx-b" "tok").trace ∧
      demoSetRequest.url = "http://localhost:9081/api/k8sconfig" ∧
      decodeRequest demoSetRequest =
        some [{ name := "k8sfile", filename := "kubeconfig.yaml",
                content := "apiVersion: v1".toList },
          { name := "contextName", filename := "", content := "ctx-b".toList }]) ∧
    (demoListRequest ∈ requestsBuilt
        (getContexts (demoEnv "[]" "") "/tmp/meshery/kubeconfig.yaml" "tok").trace ∧
      demoListRequest.url = "http://localhost:9081/api/k8sconfig/contexts" ∧
      decodeRequest demoListRequest =
        some [{ name := "k8sfile", filename := "kubeconfig.yaml",
                content := "apiVersion: v1".toList }]) := by
  have hfile : (demoEnv "[]" "").readFile "/tmp/meshery/kubeconfig.yaml" =
      .ok "apiVersion: v1".toList := by decide
  obtain ⟨-, hsu, -, cs, hcs, hsd⟩ :=
    (requests_target_and_fields (demoEnv "[]" "") "/tmp/meshery/kubeconfig.yaml" "ctx-b" "tok").1
      demoSetRequest (by decide)
  obtain ⟨-, hlu, -, cl, hcl, hld⟩ :=
    (requests_target_and_fields (demoEnv "[]" "") "/tmp/meshery/kubeconfig.yaml" "ctx-b" "tok").2
      demoListRequest (by decide)
  have hs : cs = "apiVersion: v1".toList := by
    rw [hfile] at hcs
    exact (Except.ok.inj hcs).symm
  have hl : cl = "apiVersion: v1".toList := by
    rw [hfile] at hcl
    exact (Except.ok.inj hcl).symm
  subst hs
  subst hl
  refine ⟨⟨by decide, hsu, ?_⟩, by decide, hlu, ?_⟩
  · rw [hsd (by decide) (by decide) (by decide) (by decide)]
    decide
  · rw [hld (by decide) (by decide) (by decide)]
    decide

set_option maxRecDepth 100000 in
/-- Claim C9 fails as stated. For a context name that carries a line break,
`--`, the boundary and the header block of a field `admin`, the request
`SetDefaultContext` builds decodes to the value `x` for `contextName` and a
second extra field `admin`: the name is not carried unchanged and the extra
field is not the only one. And for a kubeconfig path whose base name has a
line feed in it, the request `getContexts` builds does not decode at all. -/
theorem requests_target_and_fields_counterexample :
    (requestsBuilt (SetDefaultContext (demoEnv "[]" "") "/tmp/meshery/kubeconfig.yaml"
        smugglingName "tok").trace).map decodeRequest =
      [some [{ name := "k8sfile", filename := "kubeconfig.yaml",
               content := "apiVersion: v1".toList },
        { name := "contextName", filename := "", content := "x".toList },
        { name := "admin", filename := "", content := "true".toList }]] ∧
    (requestsBuilt (getContexts openEnv "/tmp/meshery/kube\nconfig.yaml"
        "tok").trace).map decodeRequest = [none] := by
  decide

end Mesheryctl
